import Mathlib

/-!
# ctxtg: signed authorization tokens

A shallow embedding of package `ctxtg`: from `token.go`, `RSATokenSigner.Sign`,
`RSATokenParser.Parse` and its two wrappers; from `ctxtg.go`, the conversions between
`Context` and `context.Context` and the Data helpers; and the test doubles of
`ctxtgtest`.  With them come the parts of the Go standard library (`strconv`, `time`,
`context`) and of `github.com/dgrijalva/jwt-go` (v3) that decide what these
functions return.

Conventions.
* A Go `error` is `Option GoError`; `none` is the nil error.  A Go `*Claims` is
  `Option Claims`; `none` is the nil pointer.
* `int64` and `uint64` values are `Int` and `Nat`; where Go arithmetic can wrap,
  the reduction modulo `2 ^ 64` is written out.
* base64url, JSON and the RSA primitive are not re-implemented: they are the
  fields of `jwt.Primitives`, and every definition below is parametric in them.
* Go's `int` has 64 bits (`strconv.IntSize = 64`), and a `time.Time` is an exact
  count of nanoseconds since the Unix epoch.
* A `map[string]interface{}` is a reference into a `Heap`; a callback is a function
  of its arguments and of a state, and returns or panics.
-/

/-! ## strconv -/

namespace strconv

/-- The size in bits of Go's `int` (`strconv.IntSize`) on a 64-bit target. -/
def IntSize : Nat := 64

/-- The two causes a `*strconv.NumError` can carry. -/
inductive NumError where
  | ErrSyntax
  | ErrRange
deriving DecidableEq, Repr

/-- The conversion `int64(x)`: the representative of `x` modulo `2 ^ 64` in the signed range. -/
def toInt64 (x : Int) : Int := (x + 2 ^ 63) % 2 ^ 64 - 2 ^ 63

/-- The digit loop of `strconv.ParseUint` for base 10, `n` being the value
accumulated so far.  A character outside `0..9` is a syntax error (a letter
denotes a digit `>= 10`, which base 10 rejects); the first overflow is a range
error and ends the loop with `maxVal`. -/
def parseUintLoop (maxVal : Nat) : Nat → List Char → Nat × Option NumError
  | n, [] => (n, none)
  | n, c :: cs =>
    if '0' ≤ c ∧ c ≤ '9' then
      let d := c.toNat - '0'.toNat
      if n ≥ (2 ^ 64 - 1) / 10 + 1 then (maxVal, some .ErrRange)
      else
        let n10 := n * 10 % 2 ^ 64
        let n1 := (n10 + d) % 2 ^ 64
        if n1 < n10 ∨ n1 > maxVal then (maxVal, some .ErrRange)
        else parseUintLoop maxVal n1 cs
    else (0, some .ErrSyntax)

/-- Models `strconv.ParseUint(s, 10, bitSize)`. -/
def ParseUint (s : String) (bitSize : Nat) : Nat × Option NumError :=
  if s = "" then (0, some .ErrSyntax)
  else
    let bitSize := if bitSize = 0 then IntSize else bitSize
    parseUintLoop (2 ^ bitSize - 1) 0 s.data

/-- Models `strconv.ParseInt(s, 10, bitSize)`: an optional sign, then `ParseUint`, then the
range check against `1 << (bitSize-1)`. -/
def ParseInt (s : String) (bitSize : Nat) : Int × Option NumError :=
  match s.data with
  | [] => (0, some .ErrSyntax)
  | c :: cs =>
    let (neg, rest) : Bool × String :=
      if c = '+' then (false, String.mk cs)
      else if c = '-' then (true, String.mk cs)
      else (false, s)
    match ParseUint rest bitSize with
    | (_, some .ErrSyntax) => (0, some .ErrSyntax)
    | (un, _) =>
      let bitSize := if bitSize = 0 then IntSize else bitSize
      let cutoff := 2 ^ (bitSize - 1)
      if neg = false ∧ un ≥ cutoff then ((cutoff : Int) - 1, some .ErrRange)
      else if neg = true ∧ un > cutoff then (-(cutoff : Int), some .ErrRange)
      else
        let n := toInt64 un
        (if neg then toInt64 (-n) else n, none)

/-- The digit loop of `strconv.formatBits` for base 10: the digits of `u` are written
in front of `a`, least significant first.  `fuel` bounds the number of digits
(Go's buffer holds 65 bytes). -/
def formatBits : Nat → Nat → List Char → List Char
  | 0, _, a => a
  | fuel + 1, u, a =>
    if u ≥ 10 then formatBits fuel (u / 10) (Nat.digitChar (u % 10) :: a)
    else Nat.digitChar u :: a

/-- Models `strconv.FormatInt(i, 10)` for an `int64` `i`: the digits of `|i|` (computed as the
`uint64` negation of `uint64(i)` when `i < 0`), after a `-` when `i < 0`. -/
def FormatInt (i : Int) : String :=
  if i < 0 then String.mk ('-' :: formatBits 65 ((-i) % 2 ^ 64).toNat [])
  else String.mk (formatBits 65 (i % 2 ^ 64).toNat [])

/-- The value of the digit string `cs` read in base 10 after the value `n`. -/
def decVal (n : Nat) (cs : List Char) : Nat :=
  cs.foldl (fun a c => a * 10 + (c.toNat - 48)) n

/-- The text `s` is a base-10 numeral of the integer `n`: an optional sign followed by
one or more digits `0..9` whose decimal value is `|n|`. -/
def IsBase10 (s : String) (n : Int) : Prop :=
  ∃ digits : List Char, digits ≠ [] ∧ (∀ c ∈ digits, '0' ≤ c ∧ c ≤ '9') ∧
    ((s.data = digits ∨ s.data = '+' :: digits) ∧ n = (decVal 0 digits : Int) ∨
      s.data = '-' :: digits ∧ n = -(decVal 0 digits : Int))

end strconv

/-! ## time -/

namespace time

/-- A `time.Duration`: a signed count of nanoseconds. -/
abbrev Duration := Int

/-- The constant `time.Second`. -/
def Second : Duration := 1000000000

/-- A `time.Time`, as the number of nanoseconds since the Unix epoch. -/
structure Time where
  unixNano : Int
deriving DecidableEq, Repr

/-- Models `t.Add(d)`. -/
def Time.Add (t : Time) (d : Duration) : Time := ⟨t.unixNano + d⟩

/-- Models `t.Unix()`: whole seconds since the epoch, rounded down. -/
def Time.Unix (t : Time) : Int := t.unixNano / 1000000000

end time

/-! ## errors -/

/-- An error value that is not a `*jwt.ValidationError`: a `*jsonrpc2.Error`
(`jsonrpc2.NewError(code, message)`) or an error known only by its text. -/
inductive PlainError where
  | jsonrpc2 (code : Int) (message : String)
  | text (msg : String)
deriving DecidableEq, Repr

namespace jwt

/-- The struct `jwt.ValidationError`. -/
structure ValidationError where
  Inner : Option PlainError := none
  Errors : Nat := 0
  text : String := ""
deriving DecidableEq, Repr

end jwt

/-- A non-nil Go `error` as this program can observe it: its dynamic type is either
`*jwt.ValidationError` or something else. -/
inductive GoError where
  | plain (e : PlainError)
  | validation (ve : jwt.ValidationError)
deriving DecidableEq, Repr

/-! ## jwt-go -/

namespace jwt

/-- The flag `ValidationErrorMalformed` (`1 << 0`): the token is malformed. -/
def ValidationErrorMalformed : Nat := 1
/-- The flag `ValidationErrorUnverifiable`: the token could not be verified because of signing problems. -/
def ValidationErrorUnverifiable : Nat := 2
/-- The flag `ValidationErrorSignatureInvalid`: signature validation failed. -/
def ValidationErrorSignatureInvalid : Nat := 4
/-- The flag `ValidationErrorAudience`. -/
def ValidationErrorAudience : Nat := 8
/-- The flag `ValidationErrorExpired`: `exp` validation failed. -/
def ValidationErrorExpired : Nat := 16
/-- The flag `ValidationErrorIssuedAt`: `iat` validation failed. -/
def ValidationErrorIssuedAt : Nat := 32
/-- The flag `ValidationErrorIssuer`. -/
def ValidationErrorIssuer : Nat := 64
/-- The flag `ValidationErrorNotValidYet`: `nbf` validation failed. -/
def ValidationErrorNotValidYet : Nat := 128
/-- The flag `ValidationErrorId`. -/
def ValidationErrorId : Nat := 256
/-- The flag `ValidationErrorClaimsInvalid`. -/
def ValidationErrorClaimsInvalid : Nat := 512

/-- Models `NewValidationError(errorText, errorFlags)`. -/
def NewValidationError (errorText : String) (errorFlags : Nat) : ValidationError :=
  { text := errorText, Errors := errorFlags }

/-- The method `(e *ValidationError) valid()`: no flag is set. -/
def ValidationError.valid (e : ValidationError) : Bool := e.Errors == 0

/-- The signing methods jwt-go registers. -/
inductive SigningMethod where
  | HS256 | HS384 | HS512
  | RS256 | RS384 | RS512
  | PS256 | PS384 | PS512
  | ES256 | ES384 | ES512
  | None
deriving DecidableEq, Repr

/-- The method `Alg()`: the name a signing method is registered under. -/
def SigningMethod.Alg : SigningMethod → String
  | .HS256 => "HS256" | .HS384 => "HS384" | .HS512 => "HS512"
  | .RS256 => "RS256" | .RS384 => "RS384" | .RS512 => "RS512"
  | .PS256 => "PS256" | .PS384 => "PS384" | .PS512 => "PS512"
  | .ES256 => "ES256" | .ES384 => "ES384" | .ES512 => "ES512"
  | .None => "none"

/-- Models `GetSigningMethod(alg)`: the registered method of that name, if any. -/
def GetSigningMethod (alg : String) : Option SigningMethod :=
  if alg = "HS256" then some .HS256 else if alg = "HS384" then some .HS384
  else if alg = "HS512" then some .HS512 else if alg = "RS256" then some .RS256
  else if alg = "RS384" then some .RS384 else if alg = "RS512" then some .RS512
  else if alg = "PS256" then some .PS256 else if alg = "PS384" then some .PS384
  else if alg = "PS512" then some .PS512 else if alg = "ES256" then some .ES256
  else if alg = "ES384" then some .ES384 else if alg = "ES512" then some .ES512
  else if alg = "none" then some .None else none

/-- Whether the dynamic type of the method is `*jwt.SigningMethodRSA`, which is what
the type assertion `t.Method.(*jwt.SigningMethodRSA)` tests.  `SigningMethodRS256`,
`SigningMethodRS384` and `SigningMethodRS512` are the three values of that type; the
PSS methods have type `*jwt.SigningMethodRSAPSS`. -/
def SigningMethod.isRSA : SigningMethod → Bool
  | .RS256 | .RS384 | .RS512 => true
  | _ => false

/-- The struct `jwt.StandardClaims`. -/
structure StandardClaims where
  Audience : String := ""
  ExpiresAt : Int := 0
  Id : String := ""
  IssuedAt : Int := 0
  Issuer : String := ""
  NotBefore : Int := 0
  Subject : String := ""
deriving DecidableEq, Repr

/-- An `*rsa.PublicKey`. -/
structure PublicKey where
  N : Nat
  E : Nat
deriving DecidableEq, Repr

/-- An `*rsa.PrivateKey`. -/
structure PrivateKey where
  PublicKey : PublicKey
  D : Nat
deriving DecidableEq, Repr

/-- The capabilities jwt-go calls into and this development does not re-implement:
base64url (`EncodeSegment`, `DecodeSegment`), `encoding/json` on the token header (of
which only the `alg` entry is read) and on `StandardClaims`, and the PKCS #1 v1.5
signature primitive of `crypto/rsa`.  Byte slices are `String`s. -/
structure Primitives where
  EncodeSegment : String → String
  DecodeSegment : String → Except PlainError String
  /-- Models `json.Marshal` of the header `{"typ":"JWT","alg":alg}`. -/
  MarshalHeader : String → String
  /-- Models `json.Unmarshal` into the header map, then `Header["alg"].(string)`. -/
  UnmarshalHeader : String → Except PlainError (Option String)
  MarshalClaims : StandardClaims → String
  /-- Models `json.NewDecoder(..).Decode(&claims)`. -/
  DecodeClaims : String → Except PlainError StandardClaims
  /-- Models `rsa.SignPKCS1v15` on the hash of the message under the method's hash function. -/
  SignPKCS1v15 : PrivateKey → SigningMethod → String → Except PlainError String
  /-- Models `rsa.VerifyPKCS1v15` on the hash of the message; `none` when the signature verifies. -/
  VerifyPKCS1v15 : PublicKey → SigningMethod → String → String → Option PlainError

/-- The struct `jwt.Token`; of `Header` only the string under `alg` is kept, and the
claims live in the caller's variable (see `ParseResult`). -/
structure Token where
  Raw : String := ""
  Method : Option SigningMethod := none
  Header : Option String := none
  Signature : String := ""
  Valid : Bool := false
deriving DecidableEq, Repr

/-- Models `strings.Split(s, ".")` on the characters of `s`. -/
def splitDot : List Char → List (List Char)
  | [] => [[]]
  | c :: cs =>
    if c = '.' then [] :: splitDot cs
    else
      match splitDot cs with
      | [] => [[c]]
      | p :: ps => (c :: p) :: ps

/-- Models `strings.Split(s, ".")`. -/
def Split (s : String) : List String := (splitDot s.data).map String.mk

/-- Models `verifyExp`: an `exp` of 0 means the claim is absent. -/
def verifyExp (exp now : Int) (required : Bool) : Bool :=
  if exp = 0 then !required else decide (now ≤ exp)

/-- Models `verifyIat`. -/
def verifyIat (iat now : Int) (required : Bool) : Bool :=
  if iat = 0 then !required else decide (now ≥ iat)

/-- Models `verifyNbf`. -/
def verifyNbf (nbf now : Int) (required : Bool) : Bool :=
  if nbf = 0 then !required else decide (now ≥ nbf)

/-- Models `(c StandardClaims) Valid()`, `now` being what `jwt.TimeFunc()` returns.  The
texts of the inner errors are shortened. -/
def StandardClaims.Valid (c : StandardClaims) (now : time.Time) : Option ValidationError :=
  let now := now.Unix
  let vErr : ValidationError := {}
  let vErr :=
    if verifyExp c.ExpiresAt now false = false then
      { vErr with Inner := some (.text "token is expired"),
                  Errors := vErr.Errors ||| ValidationErrorExpired }
    else vErr
  let vErr :=
    if verifyIat c.IssuedAt now false = false then
      { vErr with Inner := some (.text "Token used before issued"),
                  Errors := vErr.Errors ||| ValidationErrorIssuedAt }
    else vErr
  let vErr :=
    if verifyNbf c.NotBefore now false = false then
      { vErr with Inner := some (.text "token is not valid yet"),
                  Errors := vErr.Errors ||| ValidationErrorNotValidYet }
    else vErr
  if vErr.valid then none else some vErr

/-- What a call `jwt.ParseWithClaims(tokenString, &claims, keyFunc)` leaves behind: the
returned `*Token` (`none` is nil), the returned error, and the contents of the
caller's `claims` variable, which the decoder writes through the pointer. -/
structure ParseResult where
  token : Option Token
  claims : StandardClaims
  err : Option GoError
deriving DecidableEq, Repr

/-- Models `(p *Parser) ParseUnverified(tokenString, claims)`: the token, the parts, the decoded
claims and the error.  (When the header segment is not base64 and the string
starts with `bearer `, the library uses another error text; the flags are the same.) -/
def ParseUnverified (P : Primitives) (tokenString : String) :
    Option Token × List String × StandardClaims × Option ValidationError :=
  let parts := Split tokenString
  match parts with
  | [p0, p1, _] =>
    let token : Token := { Raw := tokenString }
    match P.DecodeSegment p0 with
    | .error e => (some token, parts, {}, some { Inner := some e, Errors := ValidationErrorMalformed })
    | .ok headerBytes =>
      match P.UnmarshalHeader headerBytes with
      | .error e => (some token, parts, {}, some { Inner := some e, Errors := ValidationErrorMalformed })
      | .ok alg =>
        let token := { token with Header := alg }
        match P.DecodeSegment p1 with
        | .error e => (some token, parts, {}, some { Inner := some e, Errors := ValidationErrorMalformed })
        | .ok claimBytes =>
          match P.DecodeClaims claimBytes with
          | .error e => (some token, parts, {}, some { Inner := some e, Errors := ValidationErrorMalformed })
          | .ok claims =>
            match alg with
            | some method =>
              match GetSigningMethod method with
              | none =>
                (some token, parts, claims,
                  some (NewValidationError "signing method (alg) is unavailable." ValidationErrorUnverifiable))
              | some m => (some { token with Method := some m }, parts, claims, none)
            | none =>
              (some token, parts, claims,
                some (NewValidationError "signing method (alg) is unspecified." ValidationErrorUnverifiable))
  | _ =>
    (none, parts, {},
      some (NewValidationError "token contains an invalid number of segments" ValidationErrorMalformed))

/-- Models `Method.Verify(signingString, signature, key)` for a key of type `*rsa.PublicKey`.
The RSA methods decode the signature segment and call the primitive (the RSA-PSS
methods likewise, with their own padding, which the primitive tells apart by the
method); the HMAC and ECDSA methods reject the key type; `none` rejects every key but
its own marker value. -/
def SigningMethod.Verify (P : Primitives) (m : SigningMethod) (signingString signature : String)
    (key : PublicKey) : Option PlainError :=
  match m with
  | .RS256 | .RS384 | .RS512 | .PS256 | .PS384 | .PS512 =>
    match P.DecodeSegment signature with
    | .error e => some e
    | .ok sig => P.VerifyPKCS1v15 key m signingString sig
  | .HS256 | .HS384 | .HS512 | .ES256 | .ES384 | .ES512 => some (.text "key is of invalid type")
  | .None => some (.text "'none' signature type is not allowed")

/-- The type `jwt.Keyfunc`, for key functions that return an `*rsa.PublicKey`. -/
abbrev Keyfunc := Token → Except GoError PublicKey

/-- Models `jwt.ParseWithClaims(tokenString, &claims, keyFunc)` with the default parser (no
`ValidMethods`, claims validation on) and a non-nil `keyFunc`; `now` is what
`jwt.TimeFunc()` returns.  (`ParseUnverified` returns a nil token only with an error, and
a token without a method only with an error, so the second case and the case of a
token without a method are never taken; they make the function total.) -/
def ParseWithClaims (P : Primitives) (now : time.Time) (tokenString : String)
    (keyFunc : Keyfunc) : ParseResult :=
  match ParseUnverified P tokenString with
  | (token, _, claims, some err) => ⟨token, claims, some (.validation err)⟩
  | (none, _, claims, none) => ⟨none, claims, none⟩
  | (some token, parts, claims, none) =>
    match keyFunc token with
    | .error (.validation ve) => ⟨some token, claims, some (.validation ve)⟩
    | .error (.plain e) =>
      ⟨some token, claims,
        some (.validation { Inner := some e, Errors := ValidationErrorUnverifiable })⟩
    | .ok key =>
      let vErr : ValidationError :=
        match claims.Valid now with
        | some e => e
        | none => {}
      let token := { token with Signature := parts.getD 2 "" }
      let vErr :=
        match token.Method with
        | none => vErr
        | some m =>
          match m.Verify P (parts.getD 0 "" ++ "." ++ parts.getD 1 "") token.Signature key with
          | some err =>
            { vErr with Inner := some err,
                        Errors := vErr.Errors ||| ValidationErrorSignatureInvalid }
          | none => vErr
      if vErr.valid then ⟨some { token with Valid := true }, claims, none⟩
      else ⟨some token, claims, some (.validation vErr)⟩

/-- Models `Method.Sign(signingString, key)` for a key of type `*rsa.PrivateKey`.  The RSA
methods call the primitive and encode the signature (the RSA-PSS methods likewise);
the HMAC and ECDSA methods reject the key type; `none` rejects every key but its own
marker value. -/
def SigningMethod.Sign (P : Primitives) (m : SigningMethod) (signingString : String)
    (key : PrivateKey) : Except PlainError String :=
  match m with
  | .RS256 | .RS384 | .RS512 | .PS256 | .PS384 | .PS512 =>
    match P.SignPKCS1v15 key m signingString with
    | .error e => .error e
    | .ok sigBytes => .ok (P.EncodeSegment sigBytes)
  | .HS256 | .HS384 | .HS512 | .ES256 | .ES384 | .ES512 => .error (.text "key is of invalid type")
  | .None => .error (.text "'none' signature type is not allowed")

/-- Models `jwt.NewWithClaims(method, claims).SignedString(key)`: the signing string
`EncodeSegment(header) + "." + EncodeSegment(claims)`, then the method's `Sign`.  On
failure the string is empty. -/
def SignedString (P : Primitives) (method : SigningMethod) (claims : StandardClaims)
    (key : PrivateKey) : String × Option GoError :=
  let sstr := P.EncodeSegment (P.MarshalHeader method.Alg) ++ "." ++
    P.EncodeSegment (P.MarshalClaims claims)
  match method.Sign P sstr key with
  | .error e => ("", some (.plain e))
  | .ok sig => (sstr ++ "." ++ sig, none)

/-- The token string `t` decodes: it has exactly the three segments `p0`, `p1`, `p2`, the
first is the encoding of a JSON header whose `alg` entry is `alg`, and the second is
the encoding of JSON claims `cl`. -/
def DecodesTo (P : Primitives) (t p0 p1 p2 : String) (alg : Option String)
    (cl : StandardClaims) : Prop :=
  Split t = [p0, p1, p2] ∧
    ∃ headerBytes claimBytes, P.DecodeSegment p0 = .ok headerBytes ∧
      P.UnmarshalHeader headerBytes = .ok alg ∧ P.DecodeSegment p1 = .ok claimBytes ∧
      P.DecodeClaims claimBytes = .ok cl

/-- The flags `StandardClaims.Valid` sets for the claims `c` at the instant `now`. -/
def timeFlags (c : StandardClaims) (now : time.Time) : Nat :=
  (if verifyExp c.ExpiresAt now.Unix false then 0 else ValidationErrorExpired) |||
    (if verifyIat c.IssuedAt now.Unix false then 0 else ValidationErrorIssuedAt) |||
    (if verifyNbf c.NotBefore now.Unix false then 0 else ValidationErrorNotValidYet)

/-- The flag the signature check adds for the result `e` of `Verify`. -/
def sigFlag (e : Option PlainError) : Nat :=
  match e with
  | none => 0
  | some _ => ValidationErrorSignatureInvalid

/-- The segment encoding carries the bytes `b`: decoding the encoding of `b` gives `b`
back, and the encoding contains no dot. -/
def Primitives.Carries (P : Primitives) (b : String) : Prop :=
  P.DecodeSegment (P.EncodeSegment b) = .ok b ∧ '.' ∉ (P.EncodeSegment b).data

/-- JSON and the segment encoding carry a header naming `alg` and the claims `cl`. -/
def Primitives.CarriesToken (P : Primitives) (alg : String) (cl : StandardClaims) : Prop :=
  P.Carries (P.MarshalHeader alg) ∧ P.UnmarshalHeader (P.MarshalHeader alg) = .ok (some alg) ∧
    P.Carries (P.MarshalClaims cl) ∧ P.DecodeClaims (P.MarshalClaims cl) = .ok cl

/-- The encoded signatures made with `priv` contain no dot. -/
def Primitives.SignatureFits (P : Primitives) (priv : PrivateKey) : Prop :=
  ∀ (m : SigningMethod) (msg sig : String), P.SignPKCS1v15 priv m msg = .ok sig →
    '.' ∉ (P.EncodeSegment sig).data

/-- The keys match: a signature made with `priv` by any method verifies under `pub` by
that method, and the segment encoding carries it. -/
def Primitives.MatchingKeys (P : Primitives) (priv : PrivateKey) (pub : PublicKey) : Prop :=
  ∀ (m : SigningMethod) (msg sig : String), P.SignPKCS1v15 priv m msg = .ok sig →
    P.Carries sig ∧ P.VerifyPKCS1v15 pub m msg sig = none

end jwt

/-! ## token.go -/

namespace ctxtg

/-- The sentinel `ErrInvalidToken = jsonrpc2.NewError(1, "INVALID_TOKEN")`. -/
def ErrInvalidToken : GoError := .plain (.jsonrpc2 1 "INVALID_TOKEN")

/-- The sentinel `ErrTokenExpired = jsonrpc2.NewError(2, "TOKEN_EXPIRED")`. -/
def ErrTokenExpired : GoError := .plain (.jsonrpc2 2 "TOKEN_EXPIRED")

/-- The type `Token` (`type Token string`). -/
abbrev Token := String

/-- The struct `Claims`; `UserID` is an `int64`. -/
structure Claims where
  UserID : Int
deriving DecidableEq, Repr

/-- The struct `RSATokenParser`. -/
structure RSATokenParser where
  publicKey : jwt.PublicKey
deriving DecidableEq, Repr

/-- The struct `RSATokenSigner`. -/
structure RSATokenSigner where
  privateKey : jwt.PrivateKey
deriving DecidableEq, Repr

/-- The key function `Parse` hands to `jwt.ParseWithClaims` (token.go, lines 83-88): the
held public key when the token's method has type `*jwt.SigningMethodRSA`, and
`ErrInvalidToken` otherwise. -/
def RSATokenParser.keyFunc (p : RSATokenParser) : jwt.Keyfunc := fun t =>
  match t.Method with
  | some m => if m.isRSA then .ok p.publicKey else .error ErrInvalidToken
  | none => .error ErrInvalidToken

/-- The part of `Parse` after the library call (token.go, lines 89-109), as a function
of what the call returned. -/
def RSATokenParser.fromResult (r : jwt.ParseResult) : Option Claims × Option GoError :=
  let valid : Bool :=
    match r.token with
    | some token => token.Valid
    | none => false
  if valid then
    match strconv.ParseInt r.claims.Subject 0 with
    | (_, some _) => (none, some ErrInvalidToken)
    | (userID, none) => (some { UserID := userID }, none)
  else
    match r.err with
    | some (.validation ve) =>
      if ve.Errors &&& jwt.ValidationErrorMalformed ≠ 0 then (none, some ErrInvalidToken)
      else if ve.Errors &&& (jwt.ValidationErrorExpired ||| jwt.ValidationErrorNotValidYet) ≠ 0 then
        (none, some ErrTokenExpired)
      else (none, some (.validation ve))
    | err => (none, err)

/-- Models `(p *RSATokenParser) Parse(t)`; `now` is the reading of the library's clock
`jwt.TimeFunc` during the call. -/
def RSATokenParser.Parse (P : jwt.Primitives) (now : time.Time) (p : RSATokenParser)
    (t : Token) : Option Claims × Option GoError :=
  RSATokenParser.fromResult (jwt.ParseWithClaims P now t p.keyFunc)

/-- The `jwt.StandardClaims` literal `Sign` builds (token.go, lines 137-140); `timeNow` is
what `timeNowFunc()` returns. -/
def signClaims (timeNow : time.Time) (c : Claims) (timeout : time.Duration) :
    jwt.StandardClaims :=
  { Subject := strconv.FormatInt c.UserID,
    ExpiresAt := (timeNow.Add timeout).Unix }

/-- Models `(r *RSATokenSigner) Sign(c, timeout)`; `timeNow` is what `timeNowFunc()` returns. -/
def RSATokenSigner.Sign (P : jwt.Primitives) (timeNow : time.Time) (r : RSATokenSigner)
    (c : Claims) (timeout : time.Duration) : Token × Option GoError :=
  jwt.SignedString P .RS256 (signClaims timeNow c timeout) r.privateKey

/-- What `jwt.ParseWithClaims` hands back to `Parse` for the token `t`, by the check
that decides it: the token does not decode; it names no registered method; its method
is not of type `*jwt.SigningMethodRSA`; the claims or the signature are rejected; or
the token is valid. -/
inductive Outcome (P : jwt.Primitives) (now : time.Time) (p : RSATokenParser) (t : String) :
    jwt.ParseResult → Prop where
  | malformed (tok : Option jwt.Token) (ve : jwt.ValidationError) :
    (¬ ∃ p0 p1 p2 alg cl, jwt.DecodesTo P t p0 p1 p2 alg cl) →
    ve.Errors = jwt.ValidationErrorMalformed →
    (∀ tk, tok = some tk → tk.Valid = false) →
    Outcome P now p t ⟨tok, {}, some (.validation ve)⟩
  | noMethod (p0 p1 p2 : String) (alg : Option String) (cl : jwt.StandardClaims)
      (ve : jwt.ValidationError) :
    jwt.DecodesTo P t p0 p1 p2 alg cl →
    (∀ a, alg = some a → jwt.GetSigningMethod a = none) →
    ve.Errors = jwt.ValidationErrorUnverifiable →
    Outcome P now p t ⟨some { Raw := t, Header := alg }, cl, some (.validation ve)⟩
  | notRSA (p0 p1 p2 a : String) (cl : jwt.StandardClaims) (m : jwt.SigningMethod) :
    jwt.DecodesTo P t p0 p1 p2 (some a) cl →
    jwt.GetSigningMethod a = some m →
    m.isRSA = false →
    Outcome P now p t
      ⟨some { Raw := t, Header := some a, Method := some m }, cl,
        some (.validation { Inner := some (.jsonrpc2 1 "INVALID_TOKEN"),
                            Errors := jwt.ValidationErrorUnverifiable })⟩
  | rejected (p0 p1 p2 a : String) (cl : jwt.StandardClaims) (m : jwt.SigningMethod)
      (ve : jwt.ValidationError) :
    jwt.DecodesTo P t p0 p1 p2 (some a) cl →
    jwt.GetSigningMethod a = some m →
    m.isRSA = true →
    ve.Errors = jwt.timeFlags cl now |||
      jwt.sigFlag (m.Verify P (p0 ++ "." ++ p1) p2 p.publicKey) →
    ve.Errors ≠ 0 →
    Outcome P now p t
      ⟨some { Raw := t, Header := some a, Method := some m, Signature := p2 }, cl,
        some (.validation ve)⟩
  | valid (p0 p1 p2 a : String) (cl : jwt.StandardClaims) (m : jwt.SigningMethod) :
    jwt.DecodesTo P t p0 p1 p2 (some a) cl →
    jwt.GetSigningMethod a = some m →
    m.isRSA = true →
    jwt.timeFlags cl now = 0 →
    m.Verify P (p0 ++ "." ++ p1) p2 p.publicKey = none →
    Outcome P now p t
      ⟨some { Raw := t, Header := some a, Method := some m, Signature := p2, Valid := true },
        cl, none⟩

end ctxtg

/-! ## A small instance of the primitives

Enough of an encoding and of RSA to run `Sign` and `Parse` on concrete tokens: a
segment is its own encoding, the header is the algorithm name, the claims are
written `sub~exp~nbf`, and a signature is the decimal numeral of
`digest ^ D mod N`. -/

namespace demo

/-- Cuts a claims text at every `~`. -/
def splitTilde : List Char → List (List Char)
  | [] => [[]]
  | c :: cs =>
    if c = '~' then [] :: splitTilde cs
    else
      match splitTilde cs with
      | [] => [[c]]
      | p :: ps => (c :: p) :: ps

/-- The digest of a message: the sum of its character codes. -/
def digest (msg : String) : Nat := (msg.data.map Char.toNat).sum

/-- Reads `sub~exp~nbf`. -/
def decodeClaims (s : String) : Except PlainError jwt.StandardClaims :=
  match splitTilde s.data with
  | [sub, exp, nbf] =>
    match strconv.ParseInt (String.mk exp) 64, strconv.ParseInt (String.mk nbf) 64 with
    | (e, none), (n, none) => .ok { Subject := String.mk sub, ExpiresAt := e, NotBefore := n }
    | _, _ => .error (.text "json: cannot unmarshal")
  | _ => .error (.text "json: cannot unmarshal")

/-- The instance. -/
def primitives : jwt.Primitives where
  EncodeSegment := fun b => b
  DecodeSegment := fun s =>
    if '!' ∈ s.data then .error (.text "illegal base64 data") else .ok s
  MarshalHeader := fun alg => alg
  UnmarshalHeader := fun s =>
    if s = "" then .error (.text "unexpected end of JSON input")
    else if s = "\x7b\x7d" then .ok none
    else .ok (some s)
  MarshalClaims := fun c =>
    c.Subject ++ "~" ++ strconv.FormatInt c.ExpiresAt ++ "~" ++ strconv.FormatInt c.NotBefore
  DecodeClaims := decodeClaims
  SignPKCS1v15 := fun key _ msg =>
    .ok (strconv.FormatInt (((digest msg % key.PublicKey.N) ^ key.D % key.PublicKey.N : Nat) : Int))
  VerifyPKCS1v15 := fun key _ msg sig =>
    match strconv.ParseUint sig 0 with
    | (v, none) =>
      if v ^ key.E % key.N = digest msg % key.N then none
      else some (.text "crypto/rsa: verification error")
    | _ => some (.text "crypto/rsa: verification error")

/-- A key pair: `N = 3 * 11`, `E = 3`, `D = 7`. -/
def privateKey : jwt.PrivateKey := { PublicKey := { N := 33, E := 3 }, D := 7 }

/-- The signer holding `privateKey`. -/
def signer : ctxtg.RSATokenSigner := { privateKey := privateKey }

/-- The parser holding the public half of `privateKey`. -/
def parser : ctxtg.RSATokenParser := { publicKey := privateKey.PublicKey }

end demo

/-! ## context

The part of Go's `context` package that ctxtg.go uses: contexts are built from
`Background` by `WithCancel`, `WithDeadline` and `WithValue`, and are read by `Value`
and `Deadline`.  A `map[string]interface{}` is a reference into a heap of maps, so
that two holders of one map see each other's writes. -/

/-- A context key, compared as Go compares interface values: a value of ctxtg's
unexported type `key`, or a key of some other type. -/
inductive Key where
  | ctxtg (k : Int)
  | other (name : String)
deriving DecidableEq, Repr

/-- A reference to a `map[string]interface{}` object. -/
abbrev MapRef := Nat

/-- A non-nil `interface{}` value, by its dynamic type: `ctxtg.Token`, `string`,
`map[string]interface{}` (`none` being the nil map), `int`, or anything else. -/
inductive Value where
  | token (t : String)
  | string (s : String)
  | data (m : Option MapRef)
  | int (i : Int)
  | other (tag : String)
deriving DecidableEq, Repr

/-- The contents of a `map[string]interface{}`: its entries, the nil interface being
`none`. -/
abbrev MapData := List (String × Option Value)

/-- The read `m[k]`: the value of the first entry for `k`, and nil if there is none. -/
def MapData.get : MapData → String → Option Value
  | [], _ => none
  | (k', v) :: rest, k => if k' = k then v else MapData.get rest k

/-- The write `m[k] = v`. -/
def MapData.set (m : MapData) (k : String) (v : Option Value) : MapData :=
  (k, v) :: m.filter (fun e => decide (e.1 ≠ k))

/-- Whether the map has an entry for `k`. -/
def MapData.has (m : MapData) (k : String) : Bool := m.any (fun e => decide (e.1 = k))

/-- The heap of map objects: the contents of every map, and the next free reference. -/
structure Heap where
  next : MapRef
  maps : MapRef → MapData

/-- The write `m[k] = v` through the reference `r`. -/
def Heap.write (h : Heap) (r : MapRef) (k : String) (v : Option Value) : Heap :=
  { h with maps := fun r' => if r' = r then (h.maps r).set k v else h.maps r' }

/-- The allocation of a new map with contents `m`: its reference and the new heap. -/
def Heap.alloc (h : Heap) (m : MapData) : MapRef × Heap :=
  (h.next, { next := h.next + 1, maps := fun r' => if r' = h.next then m else h.maps r' })

namespace time

/-- Models `time.Unix(sec, nsec)`. -/
def Unix (sec nsec : Int) : Time := ⟨sec * 1000000000 + nsec⟩

end time

namespace context

/-- A `context.Context`, by the implementation type of the value: the background context,
or a `cancelCtx`, `timerCtx` or `valueCtx` around a parent. -/
inductive Context where
  | emptyCtx
  | cancelCtx (parent : Context)
  | timerCtx (parent : Context) (deadline : time.Time)
  | valueCtx (parent : Context) (key : Key) (val : Option Value)
deriving DecidableEq, Repr

/-- A non-nil `context.CancelFunc`: the function that cancels `target`. -/
structure CancelFunc where
  target : Context
deriving DecidableEq, Repr

/-- Models `context.Background()`. -/
def Background : Context := .emptyCtx

/-- Models `ctx.Value(key)`: the value of the nearest enclosing `valueCtx` with that key, and
nil if there is none. -/
def Context.Value : Context → Key → Option Value
  | .emptyCtx, _ => none
  | .cancelCtx parent, key => parent.Value key
  | .timerCtx parent _, key => parent.Value key
  | .valueCtx parent k v, key => if k = key then v else parent.Value key

/-- Models `ctx.Deadline()`: `none` when `ok` is false. -/
def Context.Deadline : Context → Option time.Time
  | .emptyCtx => none
  | .cancelCtx parent => parent.Deadline
  | .timerCtx _ deadline => some deadline
  | .valueCtx parent _ _ => parent.Deadline

/-- Models `context.WithCancel(parent)`. -/
def WithCancel (parent : Context) : Context × Option CancelFunc :=
  (.cancelCtx parent, some ⟨.cancelCtx parent⟩)

/-- Models `context.WithDeadline(parent, d)`: when the parent's deadline is already earlier
than `d`, the result is `WithCancel(parent)`. -/
def WithDeadline (parent : Context) (d : time.Time) : Context × Option CancelFunc :=
  match parent.Deadline with
  | some cur =>
    if cur.unixNano < d.unixNano then WithCancel parent
    else (.timerCtx parent d, some ⟨.timerCtx parent d⟩)
  | none => (.timerCtx parent d, some ⟨.timerCtx parent d⟩)

/-- Models `context.WithValue(parent, key, val)`. -/
def WithValue (parent : Context) (key : Key) (val : Option Value) : Context :=
  .valueCtx parent key val

end context

/-! ## ctxtg.go -/

namespace ctxtg

/-- The constant `TokenKey`. -/
def TokenKey : Key := .ctxtg 1
/-- The constant `TracingIDKey`. -/
def TracingIDKey : Key := .ctxtg 2
/-- The constant `DataKey`. -/
def DataKey : Key := .ctxtg 3

/-- The struct `Context`; `Data` is `none` for the nil map. -/
structure Context where
  Token : Token := ""
  Deadline : Int := 0
  TracingID : String := ""
  Data : Option MapRef := none
deriving DecidableEq, Repr

/-- Models `contextFromDeadline(deadline)`. -/
def contextFromDeadline (deadline : Int) : context.Context × Option context.CancelFunc :=
  if deadline ≤ 0 then context.WithCancel context.Background
  else context.WithDeadline context.Background (time.Unix deadline 0)

/-- Models `(c *Context) ToContext()`. -/
def Context.ToContext (c : Context) : context.Context × Option context.CancelFunc :=
  let (ctx, cancel) := contextFromDeadline c.Deadline
  let ctx := context.WithValue ctx TokenKey (some (.token c.Token))
  let ctx := context.WithValue ctx TracingIDKey (some (.string c.TracingID))
  let ctx := if c.Data ≠ none then context.WithValue ctx DataKey (some (.data c.Data)) else ctx
  (ctx, cancel)

/-- Models `DataFromContext(ctx)`: the map under `DataKey` when the value there is a
`map[string]interface{}`, and the nil map otherwise. -/
def DataFromContext (ctx : context.Context) : Option MapRef :=
  match ctx.Value DataKey with
  | some (.data m) => m
  | _ => none

/-- Models `unixDeadline(ctx)`. -/
def unixDeadline (ctx : context.Context) : Int :=
  match ctx.Deadline with
  | some t => t.Unix
  | none => 0

/-- Models `tokenValue(ctx)`. -/
def tokenValue (ctx : context.Context) : Token :=
  match ctx.Value TokenKey with
  | some (.token token) => token
  | _ => ""

/-- Models `stringValue(ctx, key)`. -/
def stringValue (ctx : context.Context) (key : Key) : String :=
  match ctx.Value key with
  | some (.string str) => str
  | _ => ""

/-- Models `FromContext(ctx)`. -/
def FromContext (ctx : context.Context) : Context :=
  { Token := tokenValue ctx,
    Deadline := unixDeadline ctx,
    TracingID := stringValue ctx TracingIDKey,
    Data := DataFromContext ctx }

/-- Models `WithDataValue(parent, key, value)` on the heap `h`: the returned context and the
heap afterwards. -/
def WithDataValue (parent : context.Context) (key : String) (value : Option Value) (h : Heap) :
    context.Context × Heap :=
  match DataFromContext parent with
  | some d => (parent, h.write d key value)
  | none =>
    let (m, h') := h.alloc [(key, value)]
    (context.WithValue parent DataKey (some (.data (some m))), h')

/-- Models `ValueFromData(ctx, key)` on the heap `h`. -/
def ValueFromData (ctx : context.Context) (key : String) (h : Heap) : Option Value :=
  match DataFromContext ctx with
  | some m => (h.maps m).get key
  | none => none

end ctxtg

/-! ## token.go: the two wrappers of `Parse`

A callback is a function of its arguments and of a state `σ`, which stands for
everything the callback can read and write; it returns an error or panics.  Each
wrapper returns the way it completes, the state afterwards, and the log of the
calls it made, in order. -/

/-- How a Go call that returns an `error` completes: it returns, or it panics. -/
inductive Completion where
  | returned (err : Option GoError)
  | panicked (v : String)
deriving DecidableEq, Repr

namespace ctxtg

/-- A call made by a wrapper of `Parse`: `ToContext` returned `ctx` and the cancel function
of `ctx`; the callback was entered with these arguments; the callback completed; the
cancel function of `target` was invoked. -/
inductive Event where
  | toContext (ctx : context.Context)
  | call (ctx : Option context.Context) (claims : Claims)
  | done (r : Completion)
  | cancel (target : context.Context)
deriving DecidableEq, Repr

/-- The type `ClaimsFunc`, over the state `σ`. -/
abbrev ClaimsFunc (σ : Type) := Claims → σ → Completion × σ

/-- The type `CtxClaimsFunc`, over the state `σ`. -/
abbrev CtxClaimsFunc (σ : Type) := context.Context → Claims → σ → Completion × σ

/-- Models `(p *RSATokenParser) ParseWithClaims(t, f)` (token.go, lines 72-78).  The
dereference `*c` of a nil pointer panics. -/
def RSATokenParser.ParseWithClaims {σ : Type} (P : jwt.Primitives) (now : time.Time)
    (p : RSATokenParser) (t : Token) (f : ClaimsFunc σ) (s : σ) :
    Completion × σ × List Event :=
  match p.Parse P now t with
  | (_, some err) => (.returned (some err), s, [])
  | (none, none) => (.panicked "invalid memory address or nil pointer dereference", s, [])
  | (some c, none) =>
    let (r, s') := f c s
    (r, s', [.call none c, .done r])

/-- Models `(p *RSATokenParser) ParseCtxWithClaims(context, f)` (token.go, lines 61-69).  The
deferred `cancel()` runs when the function leaves, after `f` has returned or panicked;
calling a nil function panics. -/
def RSATokenParser.ParseCtxWithClaims {σ : Type} (P : jwt.Primitives) (now : time.Time)
    (p : RSATokenParser) (context : Context) (f : CtxClaimsFunc σ) (s : σ) :
    Completion × σ × List Event :=
  match p.Parse P now context.Token with
  | (_, some err) => (.returned (some err), s, [])
  | (c, none) =>
    let (ctx, cancel) := context.ToContext
    match c with
    | none =>
      match cancel with
      | some cancel =>
        (.panicked "invalid memory address or nil pointer dereference", s,
          [.toContext ctx, .cancel cancel.target])
      | none =>
        (.panicked "invalid memory address or nil pointer dereference", s, [.toContext ctx])
    | some c =>
      let (r, s') := f ctx c s
      match cancel with
      | some cancel => (r, s', [.toContext ctx, .call (some ctx) c, .done r, .cancel cancel.target])
      | none =>
        (.panicked "invalid memory address or nil pointer dereference", s',
          [.toContext ctx, .call (some ctx) c, .done r])

end ctxtg

/-! ## ctxtgtest -/

namespace ctxtgtest

/-- The error `ErrMethodNotCalled`. -/
def ErrMethodNotCalled : GoError := .plain (.text "Method wasn't called as expected")
/-- The error `ErrUnexpectedToken`. -/
def ErrUnexpectedToken : GoError := .plain (.text "Unexpected token passed")
/-- The error `ErrUnexpectedClaims`. -/
def ErrUnexpectedClaims : GoError := .plain (.text "Unexpected Claims passed")
/-- The error `ErrUnexpectedTimeout`. -/
def ErrUnexpectedTimeout : GoError := .plain (.text "Unexpected timeout passed")

/-- The struct `Parser`; the unexported fields `token` and `called` start at their zero
values. -/
structure Parser where
  Claims : ctxtg.Claims
  Err : Option GoError
  TokenExpected : ctxtg.Token
  token : ctxtg.Token := ""
  called : Bool := false
deriving DecidableEq, Repr

/-- Models `(p *Parser) Parse(token)`: the returned pair and the double afterwards.  The
returned pointer `&p.Claims` is never nil. -/
def Parser.Parse (p : Parser) (token : ctxtg.Token) :
    (Option ctxtg.Claims × Option GoError) × Parser :=
  ((some p.Claims, p.Err), { p with called := true, token := token })

/-- Models `(p *Parser) ParseWithClaims(token, f)`. -/
def Parser.ParseWithClaims {σ : Type} (p : Parser) (token : ctxtg.Token)
    (f : ctxtg.ClaimsFunc σ) (s : σ) : Completion × σ × Parser :=
  match p.Parse token with
  | ((_, some err), p') => (.returned (some err), s, p')
  | ((none, none), p') =>
    (.panicked "invalid memory address or nil pointer dereference", s, p')
  | ((some c, none), p') =>
    let (r, s') := f c s
    (r, s', p')

/-- Models `(p *Parser) ParseCtxWithClaims(context, f)`. -/
def Parser.ParseCtxWithClaims {σ : Type} (p : Parser) (context : ctxtg.Context)
    (f : ctxtg.CtxClaimsFunc σ) (s : σ) : Completion × σ × Parser :=
  match p.Parse context.Token with
  | ((_, some err), p') => (.returned (some err), s, p')
  | ((none, none), p') =>
    (.panicked "invalid memory address or nil pointer dereference", s, p')
  | ((some c, none), p') =>
    let (r, s') := f context.ToContext.1 c s
    (r, s', p')

/-- Models `(p *Parser) Error()`. -/
def Parser.Error (p : Parser) : Option GoError :=
  if !p.called then some ErrMethodNotCalled
  else if p.TokenExpected ≠ p.token then some ErrUnexpectedToken
  else none

/-- The struct `Signer`; the unexported fields start at their zero values. -/
structure Signer where
  Token : ctxtg.Token
  Err : Option GoError
  ClaimsExpected : ctxtg.Claims
  TimeoutExpected : time.Duration
  timeout : time.Duration := 0
  claims : ctxtg.Claims := ⟨0⟩
  called : Bool := false
deriving DecidableEq, Repr

/-- Models `(s *Signer) Sign(c, timeout)`: the returned pair and the double afterwards. -/
def Signer.Sign (s : Signer) (c : ctxtg.Claims) (timeout : time.Duration) :
    (ctxtg.Token × Option GoError) × Signer :=
  ((s.Token, s.Err), { s with called := true, claims := c, timeout := timeout })

/-- Models `(s *Signer) Error()`. -/
def Signer.Error (s : Signer) : Option GoError :=
  if !s.called then some ErrMethodNotCalled
  else if s.ClaimsExpected ≠ s.claims then some ErrUnexpectedClaims
  else if s.TimeoutExpected ≠ s.timeout then some ErrUnexpectedTimeout
  else none

/-- A call on a `Parser` double, through one of its three methods. -/
inductive ParserCall (σ : Type) where
  | parse (token : ctxtg.Token)
  | parseWithClaims (token : ctxtg.Token) (f : ctxtg.ClaimsFunc σ)
  | parseCtxWithClaims (context : ctxtg.Context) (f : ctxtg.CtxClaimsFunc σ)

/-- The token a call passes to `Parse`. -/
def ParserCall.token {σ : Type} : ParserCall σ → ctxtg.Token
  | .parse token => token
  | .parseWithClaims token _ => token
  | .parseCtxWithClaims context _ => context.Token

/-- One call on a `Parser` double: the double and the callbacks' state afterwards. -/
def Parser.step {σ : Type} (ps : Parser × σ) (call : ParserCall σ) : Parser × σ :=
  match call with
  | .parse token => ((ps.1.Parse token).2, ps.2)
  | .parseWithClaims token f =>
    let r := ps.1.ParseWithClaims token f ps.2
    (r.2.2, r.2.1)
  | .parseCtxWithClaims context f =>
    let r := ps.1.ParseCtxWithClaims context f ps.2
    (r.2.2, r.2.1)

/-- A sequence of calls on a `Parser` double, first call first. -/
def Parser.run {σ : Type} (p : Parser) (s : σ) (calls : List (ParserCall σ)) : Parser × σ :=
  calls.foldl Parser.step (p, s)

/-- A sequence of `Sign` calls on a `Signer` double, first call first. -/
def Signer.run (s : Signer) (calls : List (ctxtg.Claims × time.Duration)) : Signer :=
  calls.foldl (fun s call => (s.Sign call.1 call.2).2) s

end ctxtgtest

namespace ctxtg

/-- Whether the event is the entry of the callback. -/
def Event.isCall : Event → Bool
  | .call _ _ => true
  | _ => false

end ctxtg

namespace demo

/-- A heap with the one map `{"key1": 1}`, at reference 0. -/
def heap : Heap := { next := 1, maps := fun _ => [("key1", some (.int 1))] }

/-- A context that carries the map at reference 0 under `DataKey`. -/
def dataContext : context.Context :=
  context.WithValue context.Background ctxtg.DataKey (some (.data (some 0)))

/-- A callback that counts its invocations and returns nil. -/
def countingFunc : ctxtg.ClaimsFunc Nat := fun _ n => (.returned none, n + 1)

/-- A callback on a context that counts its invocations and returns the error `failed`. -/
def failingCtxFunc : ctxtg.CtxClaimsFunc Nat := fun _ _ n =>
  (.returned (some (.plain (.text "failed"))), n + 1)

end demo

namespace jwt

/-- Models `(t *Token) SigningString()`: the text that `SignedString` signs. -/
def SigningString (P : Primitives) (method : SigningMethod) (claims : StandardClaims) : String :=
  P.EncodeSegment (P.MarshalHeader method.Alg) ++ "." ++ P.EncodeSegment (P.MarshalClaims claims)

end jwt

/-! ## Lemmas: strconv -/

namespace strconv

theorem decVal_nil (n : Nat) : decVal n [] = n := rfl

theorem decVal_cons (n : Nat) (c : Char) (cs : List Char) :
    decVal n (c :: cs) = decVal (n * 10 + (c.toNat - 48)) cs := rfl

theorem digit_bounds {c : Char} (h : '0' ≤ c ∧ c ≤ '9') : 48 ≤ c.toNat ∧ c.toNat ≤ 57 := by
  obtain ⟨h0, h9⟩ := h
  rw [Char.le_def, UInt32.le_def, BitVec.le_def] at h0 h9
  have e : c.toNat = c.val.toBitVec.toNat := rfl
  have e0 : ('0' : Char).val.toBitVec.toNat = 48 := by decide
  have e9 : ('9' : Char).val.toBitVec.toNat = 57 := by decide
  omega

theorem le_decVal (cs : List Char) : ∀ n, n ≤ decVal n cs := by
  induction cs with
  | nil => intro n; exact Nat.le_refl _
  | cons c cs ih =>
    intro n
    have := ih (n * 10 + (c.toNat - 48))
    rw [decVal_cons]
    omega

theorem parseUintLoop_of_digits (maxVal : Nat) (hmax : maxVal < 2 ^ 64) (cs : List Char) :
    ∀ n, (∀ c ∈ cs, '0' ≤ c ∧ c ≤ '9') → decVal n cs ≤ maxVal →
      parseUintLoop maxVal n cs = (decVal n cs, none) := by
  induction cs with
  | nil => intro n _ _; simp [parseUintLoop, decVal_nil]
  | cons c cs ih =>
    intro n hd hv
    have hc := hd c (List.mem_cons_self _ _)
    have hb := digit_bounds hc
    have e0 : ('0' : Char).toNat = 48 := by decide
    have hle := le_decVal cs (n * 10 + (c.toNat - 48))
    rw [decVal_cons] at hv
    have hn : n * 10 + (c.toNat - 48) ≤ maxVal := by omega
    have h1 : ¬ n ≥ (2 ^ 64 - 1) / 10 + 1 := by omega
    have h2 : n * 10 % 2 ^ 64 = n * 10 := Nat.mod_eq_of_lt (by omega)
    have h3 : (n * 10 + (c.toNat - 48)) % 2 ^ 64 = n * 10 + (c.toNat - 48) :=
      Nat.mod_eq_of_lt (by omega)
    simp only [parseUintLoop, hc, and_self, if_true, h1, if_false, h2, e0, h3]
    rw [if_neg (by omega)]
    exact ih _ (fun c' hc' => hd c' (List.mem_cons_of_mem _ hc')) hv

theorem parseUintLoop_result (maxVal : Nat) (cs : List Char) :
    ∀ n r, parseUintLoop maxVal n cs = (r, none) →
      (∀ c ∈ cs, '0' ≤ c ∧ c ≤ '9') ∧ r = decVal n cs ∧ (cs ≠ [] → r ≤ maxVal) := by
  induction cs with
  | nil =>
    intro n r h
    simp [parseUintLoop] at h
    simp [decVal_nil, h]
  | cons c cs ih =>
    intro n r h
    have e0 : ('0' : Char).toNat = 48 := by decide
    simp only [parseUintLoop] at h
    split at h
    · rename_i hc
      have hb := digit_bounds hc
      split at h
      · simp at h
      · rename_i h1
        split at h
        · simp at h
        · rename_i h2
          have h3 : n * 10 % 2 ^ 64 = n * 10 := Nat.mod_eq_of_lt (by omega)
          rw [h3, e0] at h2
          have h4 : (n * 10 + (c.toNat - 48)) % 2 ^ 64 = n * 10 + (c.toNat - 48) := by
            apply Nat.mod_eq_of_lt
            by_contra hge
            have : (n * 10 + (c.toNat - 48)) % 2 ^ 64 = n * 10 + (c.toNat - 48) - 2 ^ 64 := by
              omega
            omega
          rw [h3, e0, h4] at h
          obtain ⟨hd, hr, hm⟩ := ih _ _ h
          refine ⟨?_, ?_, ?_⟩
          · intro c' hc'
            rcases List.mem_cons.mp hc' with rfl | hc'
            · exact hc
            · exact hd c' hc'
          · rw [decVal_cons]; exact hr
          · intro _
            by_cases hcs : cs = []
            · subst hcs
              rw [decVal_nil] at hr
              omega
            · exact hm hcs
    · simp at h

theorem parseUintLoop_range (maxVal : Nat) (cs : List Char) :
    ∀ n r, parseUintLoop maxVal n cs = (r, some .ErrRange) → r = maxVal := by
  induction cs with
  | nil => intro n r h; simp [parseUintLoop] at h
  | cons c cs ih =>
    intro n r h
    simp only [parseUintLoop] at h
    split at h
    · split at h
      · simp at h; exact h.symm
      · split at h
        · simp at h; exact h.symm
        · exact ih _ _ h
    · simp at h

theorem mk_eq_empty (cs : List Char) : String.mk cs = "" ↔ cs = [] := by
  constructor
  · intro h
    have := congrArg String.data h
    simpa using this
  · rintro rfl; rfl

theorem ParseUint_eq_ok (cs : List Char) (r : Nat) :
    ParseUint (String.mk cs) 0 = (r, none) ↔
      cs ≠ [] ∧ (∀ c ∈ cs, '0' ≤ c ∧ c ≤ '9') ∧ r = decVal 0 cs ∧ r < 2 ^ 64 := by
  unfold ParseUint
  by_cases hcs : cs = []
  · subst hcs
    simp
  · have hne : ¬ String.mk cs = "" := fun h => hcs ((mk_eq_empty cs).mp h)
    simp only [hne, if_false, if_true, IntSize, hcs, ne_eq, not_false_eq_true, true_and]
    constructor
    · intro h
      obtain ⟨hd, hr, hm⟩ := parseUintLoop_result _ cs 0 r h
      have := hm hcs
      exact ⟨hd, hr, by omega⟩
    · rintro ⟨hd, hr, hm⟩
      rw [hr]
      exact parseUintLoop_of_digits _ (by omega) cs 0 hd (by omega)

theorem ParseUint_range (s : String) (r : Nat) (h : ParseUint s 0 = (r, some .ErrRange)) :
    r = 2 ^ 64 - 1 := by
  unfold ParseUint at h
  split at h
  · simp at h
  · exact parseUintLoop_range _ _ _ _ h

theorem toInt64_of_range {x : Int} (h1 : -2 ^ 63 ≤ x) (h2 : x < 2 ^ 63) : toInt64 x = x := by
  unfold toInt64
  omega

theorem toInt64_neg_toInt64 {u : Nat} (h : u ≤ 2 ^ 63) : toInt64 (-toInt64 (u : Int)) = -(u : Int) := by
  unfold toInt64
  omega

/-- What `ParseInt` does once the sign is removed. -/
theorem ParseInt_tail (neg : Bool) (cs : List Char) (n : Int) :
    (match ParseUint (String.mk cs) 0 with
      | (_, some .ErrSyntax) => ((0 : Int), some NumError.ErrSyntax)
      | (un, _) =>
        let bitSize := if 0 = 0 then IntSize else 0
        let cutoff := 2 ^ (bitSize - 1)
        if neg = false ∧ un ≥ cutoff then ((cutoff : Int) - 1, some .ErrRange)
        else if neg = true ∧ un > cutoff then (-(cutoff : Int), some .ErrRange)
        else
          let n := toInt64 un
          (if neg then toInt64 (-n) else n, none)) = (n, none) ↔
    cs ≠ [] ∧ (∀ c ∈ cs, '0' ≤ c ∧ c ≤ '9') ∧
      n = (if neg then -(decVal 0 cs : Int) else (decVal 0 cs : Int)) ∧
      -2 ^ 63 ≤ n ∧ n < 2 ^ 63 := by
  rcases hu : ParseUint (String.mk cs) 0 with ⟨un, _ | e⟩
  · obtain ⟨hne, hd, hr, hm⟩ := (ParseUint_eq_ok cs un).mp hu
    simp only [IntSize, if_true]
    subst hr
    cases neg
    · simp only [true_and, Bool.false_eq_true, false_and, if_false]
      split
      · rename_i hge
        simp only [Prod.mk.injEq, reduceCtorEq, and_false, false_iff]
        rintro ⟨_, _, hn, _, hlt⟩
        subst hn
        omega
      · rename_i hge
        have : toInt64 (decVal 0 cs : Int) = decVal 0 cs := toInt64_of_range (by omega) (by omega)
        simp only [Prod.mk.injEq, and_true, this]
        constructor
        · intro h; subst h; exact ⟨hne, hd, rfl, by omega, by omega⟩
        · rintro ⟨_, _, hn, _⟩; exact hn.symm
    · simp only [Bool.true_eq_false, false_and, if_false, true_and, if_true]
      split
      · rename_i hge
        simp only [Prod.mk.injEq, reduceCtorEq, and_false, false_iff]
        rintro ⟨_, _, hn, hlo, _⟩
        subst hn
        omega
      · rename_i hge
        have : toInt64 (-toInt64 (decVal 0 cs : Int)) = -(decVal 0 cs : Int) :=
          toInt64_neg_toInt64 (by omega)
        simp only [Prod.mk.injEq, and_true, this]
        constructor
        · intro h; subst h; exact ⟨hne, hd, rfl, by omega, by omega⟩
        · rintro ⟨_, _, hn, _⟩; exact hn.symm
  · have hno : ∀ r, ¬ (cs ≠ [] ∧ (∀ c ∈ cs, '0' ≤ c ∧ c ≤ '9') ∧ r = decVal 0 cs ∧ r < 2 ^ 64) := by
      intro r hr
      have := (ParseUint_eq_ok cs r).mpr hr
      rw [hu] at this
      simp at this
    cases e
    · simp only [Prod.mk.injEq, reduceCtorEq, and_false, false_iff]
      rintro ⟨hne, hd, hn, hlo, hhi⟩
      refine hno (decVal 0 cs) ⟨hne, hd, rfl, ?_⟩
      subst hn
      cases neg <;> simp at hlo hhi <;> omega
    · have := ParseUint_range _ _ hu
      subst this
      simp only [IntSize, if_true]
      have hrhs : ¬ (cs ≠ [] ∧ (∀ c ∈ cs, '0' ≤ c ∧ c ≤ '9') ∧
          n = (if neg then -(decVal 0 cs : Int) else (decVal 0 cs : Int)) ∧
          -2 ^ 63 ≤ n ∧ n < 2 ^ 63) := by
        rintro ⟨hne, hd, hn, hlo, hhi⟩
        refine hno (decVal 0 cs) ⟨hne, hd, rfl, ?_⟩
        subst hn
        cases neg <;> simp at hlo hhi <;> omega
      constructor
      · intro h
        exfalso
        cases neg <;> simp at h
      · intro h
        exact absurd h hrhs

theorem not_digit_plus : ¬ ('0' ≤ '+' ∧ '+' ≤ '9') := by decide
theorem not_digit_minus : ¬ ('0' ≤ '-' ∧ '-' ≤ '9') := by decide

/-- The call `ParseInt(s, 10, 0)` succeeds with `n` exactly when `s` is a base-10 numeral of `n`
and `n` is in the range of `int64`. -/
theorem ParseInt_eq_ok (s : String) (n : Int) :
    ParseInt s 0 = (n, none) ↔ IsBase10 s n ∧ -2 ^ 63 ≤ n ∧ n < 2 ^ 63 := by
  unfold ParseInt
  rcases hs : s.data with _ | ⟨c, cs⟩
  · simp only [Prod.mk.injEq, reduceCtorEq, and_false, false_iff]
    rintro ⟨⟨digits, hne, _, (⟨h | h, _⟩ | ⟨h, _⟩)⟩, _⟩
    · rw [hs] at h; exact hne h.symm
    · rw [hs] at h; simp at h
    · rw [hs] at h; simp at h
  · have hsmk : s = String.mk (c :: cs) := by rw [← hs]
    by_cases hp : c = '+'
    · subst hp
      refine Iff.trans (ParseInt_tail false cs n) ?_
      simp only [Bool.false_eq_true, if_false]
      constructor
      · rintro ⟨hne, hd, hn, hr⟩
        exact ⟨⟨cs, hne, hd, Or.inl ⟨Or.inr hs, hn⟩⟩, hr⟩
      · rintro ⟨⟨digits, hne, hd, (⟨h | h, hn⟩ | ⟨h, hn⟩)⟩, hr⟩
        · rw [hs] at h
          exact absurd (hd '+' (by rw [← h]; exact List.mem_cons_self _ _)) not_digit_plus
        · rw [hs] at h
          obtain rfl : cs = digits := (List.cons.inj h).2
          exact ⟨hne, hd, hn, hr⟩
        · rw [hs] at h
          exact absurd (List.cons.inj h).1 (by decide)
    · by_cases hm : c = '-'
      · subst hm
        refine Iff.trans (ParseInt_tail true cs n) ?_
        simp only [if_true]
        constructor
        · rintro ⟨hne, hd, hn, hr⟩
          exact ⟨⟨cs, hne, hd, Or.inr ⟨hs, hn⟩⟩, hr⟩
        · rintro ⟨⟨digits, hne, hd, (⟨h | h, hn⟩ | ⟨h, hn⟩)⟩, hr⟩
          · rw [hs] at h
            exact absurd (hd '-' (by rw [← h]; exact List.mem_cons_self _ _)) not_digit_minus
          · rw [hs] at h
            exact absurd (List.cons.inj h).1 (by decide)
          · rw [hs] at h
            obtain rfl : cs = digits := (List.cons.inj h).2
            exact ⟨hne, hd, hn, hr⟩
      · dsimp only
        rw [if_neg hp, if_neg hm, hsmk]
        refine Iff.trans (ParseInt_tail false (c :: cs) n) ?_
        simp only [Bool.false_eq_true, if_false]
        constructor
        · rintro ⟨hne, hd, hn, hr⟩
          exact ⟨⟨c :: cs, hne, hd, Or.inl ⟨Or.inl rfl, hn⟩⟩, hr⟩
        · rintro ⟨⟨digits, hne, hd, (⟨h | h, hn⟩ | ⟨h, hn⟩)⟩, hr⟩
          · simp only at h
            subst h
            exact ⟨hne, hd, hn, hr⟩
          · exact absurd (List.cons.inj h).1 hp
          · exact absurd (List.cons.inj h).1 hm

/-- The call `ParseInt(s, 10, 0)` returns the nil error exactly when `s` is a base-10 numeral of
some integer in the range of `int64`. -/
theorem ParseInt_err_eq_none (s : String) :
    (ParseInt s 0).2 = none ↔ ∃ n : Int, IsBase10 s n ∧ -2 ^ 63 ≤ n ∧ n < 2 ^ 63 := by
  constructor
  · intro h
    refine ⟨(ParseInt s 0).1, (ParseInt_eq_ok s _).mp ?_⟩
    rw [← h]
  · rintro ⟨n, hn⟩
    rw [(ParseInt_eq_ok s n).mpr hn]

theorem digitChar_digit {d : Nat} (h : d < 10) :
    ('0' ≤ Nat.digitChar d ∧ Nat.digitChar d ≤ '9') ∧ (Nat.digitChar d).toNat - 48 = d := by
  interval_cases d <;> decide

theorem formatBits_digits (fuel : Nat) :
    ∀ u a, (∀ c ∈ a, '0' ≤ c ∧ c ≤ '9') → ∀ c ∈ formatBits fuel u a, '0' ≤ c ∧ c ≤ '9' := by
  induction fuel with
  | zero => intro u a ha; simpa [formatBits] using ha
  | succ fuel ih =>
    intro u a ha
    rw [formatBits]
    split
    · apply ih
      intro c hc
      rcases List.mem_cons.mp hc with rfl | hc
      · exact (digitChar_digit (Nat.mod_lt _ (by norm_num))).1
      · exact ha c hc
    · intro c hc
      rcases List.mem_cons.mp hc with rfl | hc
      · exact (digitChar_digit (by omega)).1
      · exact ha c hc

theorem formatBits_ne_nil (fuel : Nat) :
    ∀ u a, (a ≠ [] ∨ fuel ≠ 0) → formatBits fuel u a ≠ [] := by
  induction fuel with
  | zero => intro u a h; simpa [formatBits] using h
  | succ fuel ih =>
    intro u a _
    rw [formatBits]
    split
    · exact ih _ _ (Or.inl (List.cons_ne_nil _ _))
    · exact List.cons_ne_nil _ _

theorem decVal_formatBits (fuel : Nat) :
    ∀ u a, u < 10 ^ fuel → decVal 0 (formatBits fuel u a) = decVal u a := by
  induction fuel with
  | zero =>
    intro u a hu
    have : u = 0 := by simpa using hu
    subst this
    simp [formatBits]
  | succ fuel ih =>
    intro u a hu
    rw [formatBits]
    split
    · rw [ih _ _ (by rw [pow_succ] at hu; omega), decVal_cons,
        (digitChar_digit (Nat.mod_lt u (by norm_num))).2]
      congr 1
      omega
    · rw [decVal_cons, (digitChar_digit (by omega)).2]
      simp

/-- The text `FormatInt` writes for an `int64` is a base-10 numeral of it. -/
theorem IsBase10_FormatInt (n : Int) (h1 : -2 ^ 63 ≤ n) (h2 : n < 2 ^ 63) :
    IsBase10 (FormatInt n) n := by
  unfold FormatInt
  by_cases hn : n < 0
  · rw [if_pos hn]
    refine ⟨formatBits 65 ((-n) % 2 ^ 64).toNat [], formatBits_ne_nil _ _ _ (Or.inr (by norm_num)),
      formatBits_digits _ _ _ (by simp), Or.inr ⟨rfl, ?_⟩⟩
    rw [decVal_formatBits 65 _ [] (by norm_num; omega), decVal_nil]
    omega
  · rw [if_neg hn]
    refine ⟨formatBits 65 (n % 2 ^ 64).toNat [], formatBits_ne_nil _ _ _ (Or.inr (by norm_num)),
      formatBits_digits _ _ _ (by simp), Or.inl ⟨Or.inl rfl, ?_⟩⟩
    rw [decVal_formatBits 65 _ [] (by norm_num; omega), decVal_nil]
    omega

/-- The call `ParseInt(FormatInt(n, 10), 10, 0)` is `n`, with a nil error, for every `int64` `n`. -/
theorem ParseInt_FormatInt (n : Int) (h1 : -2 ^ 63 ≤ n) (h2 : n < 2 ^ 63) :
    ParseInt (FormatInt n) 0 = (n, none) :=
  (ParseInt_eq_ok _ n).mpr ⟨IsBase10_FormatInt n h1 h2, h1, h2⟩

end strconv

/-! ## Lemmas: jwt-go -/

namespace jwt

theorem ParseUnverified_of_decodes {P : Primitives} {t p0 p1 p2 : String} {alg : Option String}
    {cl : StandardClaims} (h : DecodesTo P t p0 p1 p2 alg cl) :
    ParseUnverified P t =
      match alg with
      | some method =>
        match GetSigningMethod method with
        | none =>
          (some { Raw := t, Header := alg }, [p0, p1, p2], cl,
            some (NewValidationError "signing method (alg) is unavailable." ValidationErrorUnverifiable))
        | some m => (some { Raw := t, Header := alg, Method := some m }, [p0, p1, p2], cl, none)
      | none =>
        (some { Raw := t, Header := alg }, [p0, p1, p2], cl,
          some (NewValidationError "signing method (alg) is unspecified." ValidationErrorUnverifiable)) := by
  obtain ⟨hs, hb, cb, h1, h2, h3, h4⟩ := h
  unfold ParseUnverified
  simp only [hs, h1, h2, h3, h4]
  cases alg with
  | none => rfl
  | some method => rfl

theorem ParseUnverified_malformed {P : Primitives} {t : String}
    (h : ¬ ∃ p0 p1 p2 alg cl, DecodesTo P t p0 p1 p2 alg cl) :
    ∃ tok ve, ParseUnverified P t = (tok, Split t, {}, some ve) ∧
      ve.Errors = ValidationErrorMalformed ∧ ∀ tk, tok = some tk → tk.Valid = false := by
  unfold ParseUnverified
  rcases hs : Split t with _ | ⟨p0, _ | ⟨p1, _ | ⟨p2, _ | ⟨p3, ps⟩⟩⟩⟩
  · exact ⟨none, _, rfl, rfl, by simp⟩
  · exact ⟨none, _, rfl, rfl, by simp⟩
  · exact ⟨none, _, rfl, rfl, by simp⟩
  · simp only
    rcases h1 : P.DecodeSegment p0 with e | hb
    · exact ⟨_, _, rfl, rfl, by simp⟩
    · simp only
      rcases h2 : P.UnmarshalHeader hb with e | alg
      · exact ⟨_, _, rfl, rfl, by simp⟩
      · simp only
        rcases h3 : P.DecodeSegment p1 with e | cb
        · exact ⟨_, _, rfl, rfl, by simp⟩
        · simp only
          rcases h4 : P.DecodeClaims cb with e | cl
          · exact ⟨_, _, rfl, rfl, by simp⟩
          · exact absurd ⟨p0, p1, p2, alg, cl, hs, hb, cb, h1, h2, h3, h4⟩ h
  · exact ⟨none, _, rfl, rfl, by simp⟩

theorem Valid_eq_none_iff (c : StandardClaims) (now : time.Time) :
    c.Valid now = none ↔ timeFlags c now = 0 := by
  unfold StandardClaims.Valid timeFlags
  dsimp only
  generalize verifyExp c.ExpiresAt now.Unix false = b1
  generalize verifyIat c.IssuedAt now.Unix false = b2
  generalize verifyNbf c.NotBefore now.Unix false = b3
  cases b1 <;> cases b2 <;> cases b3 <;> decide

theorem Valid_eq_some (c : StandardClaims) (now : time.Time) (e : ValidationError)
    (h : c.Valid now = some e) : e.Errors = timeFlags c now ∧ timeFlags c now ≠ 0 := by
  have hne : timeFlags c now ≠ 0 := fun h0 => by
    rw [(Valid_eq_none_iff c now).mpr h0] at h
    cases h
  refine ⟨?_, hne⟩
  revert h
  unfold StandardClaims.Valid timeFlags
  dsimp only
  generalize verifyExp c.ExpiresAt now.Unix false = b1
  generalize verifyIat c.IssuedAt now.Unix false = b2
  generalize verifyNbf c.NotBefore now.Unix false = b3
  cases b1 <;> cases b2 <;> cases b3 <;> intro h <;>
    simp [ValidationError.valid, ValidationErrorExpired, ValidationErrorIssuedAt,
      ValidationErrorNotValidYet] at h <;>
    (subst h; rfl)

theorem timeFlags_or_ne_zero (c : StandardClaims) (now : time.Time) :
    timeFlags c now ||| ValidationErrorSignatureInvalid ≠ 0 := by
  unfold timeFlags
  generalize verifyExp c.ExpiresAt now.Unix false = b1
  generalize verifyIat c.IssuedAt now.Unix false = b2
  generalize verifyNbf c.NotBefore now.Unix false = b3
  cases b1 <;> cases b2 <;> cases b3 <;> decide

theorem ParseWithClaims_malformed {P : Primitives} {t : String} (now : time.Time)
    (keyFunc : Keyfunc) (h : ¬ ∃ p0 p1 p2 alg cl, DecodesTo P t p0 p1 p2 alg cl) :
    ∃ tok ve, ParseWithClaims P now t keyFunc = ⟨tok, {}, some (.validation ve)⟩ ∧
      ve.Errors = ValidationErrorMalformed ∧ ∀ tk, tok = some tk → tk.Valid = false := by
  obtain ⟨tok, ve, hpu, hve, htok⟩ := ParseUnverified_malformed h
  refine ⟨tok, ve, ?_, hve, htok⟩
  unfold ParseWithClaims
  rw [hpu]
  cases tok <;> rfl

theorem ParseWithClaims_unverifiable {P : Primitives} {t p0 p1 p2 : String}
    {alg : Option String} {cl : StandardClaims} (now : time.Time) (keyFunc : Keyfunc)
    (h : DecodesTo P t p0 p1 p2 alg cl) (hm : ∀ a, alg = some a → GetSigningMethod a = none) :
    ∃ ve, ParseWithClaims P now t keyFunc =
        ⟨some { Raw := t, Header := alg }, cl, some (.validation ve)⟩ ∧
      ve.Errors = ValidationErrorUnverifiable := by
  have hpu := ParseUnverified_of_decodes h
  unfold ParseWithClaims
  rw [hpu]
  cases alg with
  | none => exact ⟨_, rfl, rfl⟩
  | some a =>
    simp only [hm a rfl]
    exact ⟨_, rfl, rfl⟩

end jwt

namespace ctxtg

open jwt

/-- For a decodable token whose method is not of type `*jwt.SigningMethodRSA`, the library
wraps the key function's `ErrInvalidToken` in a `ValidationError`. -/
theorem ParseWithClaims_notRSA {P : Primitives} {t p0 p1 p2 a : String}
    {cl : StandardClaims} {m : SigningMethod} (now : time.Time) (p : RSATokenParser)
    (h : DecodesTo P t p0 p1 p2 (some a) cl) (hm : GetSigningMethod a = some m)
    (hrsa : m.isRSA = false) :
    ParseWithClaims P now t p.keyFunc =
      ⟨some { Raw := t, Header := some a, Method := some m }, cl,
        some (.validation { Inner := some (.jsonrpc2 1 "INVALID_TOKEN"),
                            Errors := ValidationErrorUnverifiable })⟩ := by
  have hpu := ParseUnverified_of_decodes h
  unfold ParseWithClaims
  rw [hpu]
  simp only [hm, RSATokenParser.keyFunc, hrsa, ErrInvalidToken]
  rfl

/-- For a decodable token whose method is of type `*jwt.SigningMethodRSA`, the library
validates the claims, verifies the signature against the held key, and returns a
valid token exactly when neither sets a flag. -/
theorem ParseWithClaims_RSA {P : Primitives} {t p0 p1 p2 a : String}
    {cl : StandardClaims} {m : SigningMethod} (now : time.Time) (p : RSATokenParser)
    (h : DecodesTo P t p0 p1 p2 (some a) cl) (hm : GetSigningMethod a = some m)
    (hrsa : m.isRSA = true) :
    let flags := timeFlags cl now ||| sigFlag (m.Verify P (p0 ++ "." ++ p1) p2 p.publicKey)
    (flags = 0 →
      ParseWithClaims P now t p.keyFunc =
        ⟨some { Raw := t, Header := some a, Method := some m, Signature := p2, Valid := true },
          cl, none⟩) ∧
    (flags ≠ 0 →
      ∃ ve, ParseWithClaims P now t p.keyFunc =
          ⟨some { Raw := t, Header := some a, Method := some m, Signature := p2 }, cl,
            some (.validation ve)⟩ ∧ ve.Errors = flags) := by
  have hpu := ParseUnverified_of_decodes h
  intro flags
  have hP : ParseWithClaims P now t p.keyFunc =
      (let vErr : ValidationError :=
        match cl.Valid now with
        | some e => e
        | none => {}
      let vErr :=
        match m.Verify P (p0 ++ "." ++ p1) p2 p.publicKey with
        | some err =>
          { vErr with Inner := some err,
                      Errors := vErr.Errors ||| ValidationErrorSignatureInvalid }
        | none => vErr
      if vErr.valid then
        ⟨some { Raw := t, Header := some a, Method := some m, Signature := p2, Valid := true },
          cl, none⟩
      else
        ⟨some { Raw := t, Header := some a, Method := some m, Signature := p2 }, cl,
          some (.validation vErr)⟩) := by
    unfold ParseWithClaims
    rw [hpu]
    simp only [hm, RSATokenParser.keyFunc, hrsa, if_true]
    rfl
  rw [hP]
  have hflags : flags = timeFlags cl now ||| sigFlag (m.Verify P (p0 ++ "." ++ p1) p2 p.publicKey) := rfl
  rcases hv : cl.Valid now with _ | e
  · have h0 := (Valid_eq_none_iff cl now).mp hv
    rw [h0] at hflags
    rcases hs : m.Verify P (p0 ++ "." ++ p1) p2 p.publicKey with _ | err
    · rw [hs] at hflags
      simp only [ValidationError.valid]
      constructor
      · intro _; rfl
      · intro hne; exact absurd hflags hne
    · rw [hs] at hflags
      simp only [ValidationError.valid]
      constructor
      · intro h0'; rw [hflags] at h0'; simp [sigFlag, ValidationErrorSignatureInvalid] at h0'
      · intro _; exact ⟨_, rfl, by rw [hflags]; rfl⟩
  · obtain ⟨he, hne⟩ := Valid_eq_some cl now e hv
    rw [← he] at hflags hne
    have he' := he
    rcases hs : m.Verify P (p0 ++ "." ++ p1) p2 p.publicKey with _ | err
    · rw [hs] at hflags
      have hfe : flags = e.Errors := by rw [hflags]; simp [sigFlag]
      have hval : e.valid = false := by simp [ValidationError.valid, hne]
      simp only [hval]
      constructor
      · intro h0'; rw [hfe] at h0'; exact absurd h0' hne
      · intro _; exact ⟨e, rfl, hfe.symm⟩
    · rw [hs] at hflags
      have hor : e.Errors ||| ValidationErrorSignatureInvalid ≠ 0 := by
        rw [he]; exact timeFlags_or_ne_zero cl now
      have hval : ValidationError.valid
          ⟨some err, e.Errors ||| ValidationErrorSignatureInvalid, e.text⟩ = false := by
        simp [ValidationError.valid, hor]
      simp only [hval]
      constructor
      · intro h0'; rw [hflags] at h0'; exact absurd h0' hor
      · intro _; exact ⟨_, rfl, hflags.symm⟩

end ctxtg

namespace jwt

theorem splitDot_ne_nil (cs : List Char) : splitDot cs ≠ [] := by
  cases cs with
  | nil => simp [splitDot]
  | cons c cs =>
    rw [splitDot]
    split
    · simp
    · split <;> simp

theorem splitDot_of_not_mem (a : List Char) (h : '.' ∉ a) : splitDot a = [a] := by
  induction a with
  | nil => rfl
  | cons c cs ih =>
    have hc : c ≠ '.' := fun e => h (e ▸ List.mem_cons_self _ _)
    have hcs : '.' ∉ cs := fun e => h (List.mem_cons_of_mem _ e)
    rw [splitDot, if_neg hc, ih hcs]

theorem splitDot_append (a rest : List Char) (h : '.' ∉ a) :
    splitDot (a ++ '.' :: rest) = a :: splitDot rest := by
  induction a with
  | nil => simp [splitDot]
  | cons c cs ih =>
    have hc : c ≠ '.' := fun e => h (e ▸ List.mem_cons_self _ _)
    have hcs : '.' ∉ cs := fun e => h (List.mem_cons_of_mem _ e)
    rw [List.cons_append, splitDot, if_neg hc, ih hcs]

/-- Three dot-free segments joined by dots split back into the three segments. -/
theorem Split_join (x y z : String) (hx : '.' ∉ x.data) (hy : '.' ∉ y.data)
    (hz : '.' ∉ z.data) : Split (x ++ "." ++ y ++ "." ++ z) = [x, y, z] := by
  have e : (x ++ "." ++ y ++ "." ++ z).data = x.data ++ '.' :: (y.data ++ '.' :: z.data) := by
    simp [String.data_append]
  unfold Split
  rw [e, splitDot_append _ _ hx, splitDot_append _ _ hy, splitDot_of_not_mem _ hz]
  rfl

theorem GetSigningMethod_Alg (m : SigningMethod) : GetSigningMethod m.Alg = some m := by
  cases m <;> decide

/-- A token made by `SignedString` decodes to the header and claims it was made from,
provided the encodings carry them. -/
theorem SignedString_decodes {P : Primitives} {m : SigningMethod} {cl : StandardClaims}
    {key : PrivateKey} {tok : String} (hc : P.CarriesToken m.Alg cl)
    (hsig : ∀ sig, P.SignPKCS1v15 key m
      (P.EncodeSegment (P.MarshalHeader m.Alg) ++ "." ++ P.EncodeSegment (P.MarshalClaims cl)) =
        .ok sig → '.' ∉ (P.EncodeSegment sig).data)
    (h : SignedString P m cl key = (tok, none)) :
    ∃ sig, P.SignPKCS1v15 key m
        (P.EncodeSegment (P.MarshalHeader m.Alg) ++ "." ++ P.EncodeSegment (P.MarshalClaims cl)) =
          .ok sig ∧
      DecodesTo P tok (P.EncodeSegment (P.MarshalHeader m.Alg))
        (P.EncodeSegment (P.MarshalClaims cl)) (P.EncodeSegment sig) (some m.Alg) cl := by
  obtain ⟨⟨h1, d1⟩, h2, ⟨h3, d3⟩, h4⟩ := hc
  unfold SignedString at h
  dsimp only at h
  rcases hS : m.Sign P
      (P.EncodeSegment (P.MarshalHeader m.Alg) ++ "." ++ P.EncodeSegment (P.MarshalClaims cl))
      key with e | s
  · rw [hS] at h
    simp at h
  · rw [hS] at h
    simp only [Prod.mk.injEq, and_true] at h
    subst h
    have hsig' : ∃ sig, P.SignPKCS1v15 key m
        (P.EncodeSegment (P.MarshalHeader m.Alg) ++ "." ++ P.EncodeSegment (P.MarshalClaims cl)) =
          .ok sig ∧ s = P.EncodeSegment sig := by
      rcases hp : P.SignPKCS1v15 key m
          (P.EncodeSegment (P.MarshalHeader m.Alg) ++ "." ++
            P.EncodeSegment (P.MarshalClaims cl)) with e | sig
      · cases m <;> simp [SigningMethod.Sign, hp] at hS
      · refine ⟨sig, rfl, ?_⟩
        cases m <;> simp [SigningMethod.Sign, hp] at hS <;> exact hS.symm
    obtain ⟨sig, hp, rfl⟩ := hsig'
    refine ⟨sig, hp, ?_, _, _, h1, h2, h3, h4⟩
    exact Split_join _ _ _ d1 d3 (hsig sig hp)

end jwt

/-! ## Lemmas: token.go -/

namespace ctxtg

open jwt

/-- Every call of the library from `Parse` ends in one of the five outcomes. -/
theorem ParseWithClaims_outcome (P : Primitives) (now : time.Time) (p : RSATokenParser)
    (t : String) : Outcome P now p t (ParseWithClaims P now t p.keyFunc) := by
  by_cases hdec : ∃ p0 p1 p2 alg cl, DecodesTo P t p0 p1 p2 alg cl
  · obtain ⟨p0, p1, p2, alg, cl, hd⟩ := hdec
    cases halg : alg with
    | none =>
      subst halg
      obtain ⟨ve, hr, hve⟩ := ParseWithClaims_unverifiable now p.keyFunc hd (by simp)
      rw [hr]
      exact Outcome.noMethod p0 p1 p2 none cl ve hd (by simp) hve
    | some a =>
      subst halg
      cases hm : GetSigningMethod a with
      | none =>
        obtain ⟨ve, hr, hve⟩ := ParseWithClaims_unverifiable now p.keyFunc hd
          (fun a' ha' => by cases ha'; exact hm)
        rw [hr]
        exact Outcome.noMethod p0 p1 p2 (some a) cl ve hd (fun a' ha' => by cases ha'; exact hm) hve
      | some m =>
        cases hrsa : m.isRSA with
        | false =>
          rw [ParseWithClaims_notRSA now p hd hm hrsa]
          exact Outcome.notRSA p0 p1 p2 a cl m hd hm hrsa
        | true =>
          obtain ⟨h0, h1⟩ := ParseWithClaims_RSA now p hd hm hrsa
          by_cases hf : timeFlags cl now ||| sigFlag (m.Verify P (p0 ++ "." ++ p1) p2 p.publicKey) = 0
          · rw [h0 hf]
            rcases hs : m.Verify P (p0 ++ "." ++ p1) p2 p.publicKey with _ | err
            · rw [hs] at hf
              exact Outcome.valid p0 p1 p2 a cl m hd hm hrsa (by simpa [sigFlag] using hf) hs
            · rw [hs] at hf
              exact absurd hf (timeFlags_or_ne_zero cl now)
          · obtain ⟨ve, hr, hve⟩ := h1 hf
            rw [hr]
            exact Outcome.rejected p0 p1 p2 a cl m ve hd hm hrsa hve (by rw [hve]; exact hf)
  · obtain ⟨tok, ve, hr, hve, htok⟩ := ParseWithClaims_malformed now p.keyFunc hdec
    rw [hr]
    exact Outcome.malformed tok ve hdec hve htok

/-- The flags of a rejected token never include the malformed flag, and include the
expired or the not-yet-valid flag exactly when that check failed. -/
theorem rejected_flags (cl : StandardClaims) (now : time.Time) (e : Option PlainError) :
    (timeFlags cl now ||| sigFlag e) &&& ValidationErrorMalformed = 0 ∧
    ((timeFlags cl now ||| sigFlag e) &&&
        (ValidationErrorExpired ||| ValidationErrorNotValidYet) ≠ 0 ↔
      verifyExp cl.ExpiresAt now.Unix false = false ∨
        verifyNbf cl.NotBefore now.Unix false = false) := by
  have hf : sigFlag e = 0 ∨ sigFlag e = 4 := by
    cases e
    · exact Or.inl rfl
    · exact Or.inr rfl
  unfold timeFlags
  generalize verifyExp cl.ExpiresAt now.Unix false = b1
  generalize verifyIat cl.IssuedAt now.Unix false = b2
  generalize verifyNbf cl.NotBefore now.Unix false = b3
  rcases hf with hf | hf <;> rw [hf] <;> cases b1 <;> cases b2 <;> cases b3 <;> decide

/-- What `Parse` makes of a result whose token is not valid and whose error is a
`*jwt.ValidationError`. -/
theorem fromResult_validation (tok : Option jwt.Token) (cl : StandardClaims) (ve : ValidationError)
    (htok : ∀ tk, tok = some tk → tk.Valid = false) :
    RSATokenParser.fromResult ⟨tok, cl, some (.validation ve)⟩ =
      if ve.Errors &&& ValidationErrorMalformed ≠ 0 then (none, some ErrInvalidToken)
      else if ve.Errors &&& (ValidationErrorExpired ||| ValidationErrorNotValidYet) ≠ 0 then
        (none, some ErrTokenExpired)
      else (none, some (.validation ve)) := by
  unfold RSATokenParser.fromResult
  cases tok with
  | none => rfl
  | some tk =>
    have := htok tk rfl
    simp only [this]
    rfl

/-- What `Parse` makes of a valid token whose subject `ParseInt` reads. -/
theorem fromResult_valid_ok (tk : jwt.Token) (cl : StandardClaims) (err : Option GoError)
    (n : Int) (h : tk.Valid = true) (hn : strconv.ParseInt cl.Subject 0 = (n, none)) :
    RSATokenParser.fromResult ⟨some tk, cl, err⟩ = (some { UserID := n }, none) := by
  unfold RSATokenParser.fromResult
  simp only [h, if_true, hn]

/-- What `Parse` makes of a valid token whose subject `ParseInt` rejects. -/
theorem fromResult_valid_err (tk : jwt.Token) (cl : StandardClaims) (err : Option GoError)
    (h : tk.Valid = true) (hn : (strconv.ParseInt cl.Subject 0).2 ≠ none) :
    RSATokenParser.fromResult ⟨some tk, cl, err⟩ = (none, some ErrInvalidToken) := by
  unfold RSATokenParser.fromResult
  simp only [h, if_true]
  rcases hp : strconv.ParseInt cl.Subject 0 with ⟨v, _ | e⟩
  · rw [hp] at hn; exact absurd rfl hn
  · rfl

/-- The method `Parse` on a token made by `SignedString` with a method of type
`*jwt.SigningMethodRSA` and the matching private key, at an instant when no time
check fails, returns the integer its subject denotes. -/
theorem Parse_SignedString (P : Primitives) (now : time.Time) (p : RSATokenParser)
    (m : SigningMethod) (cl : StandardClaims) (key : PrivateKey) (tok : String) (n : Int)
    (hm : m.isRSA = true) (hcodec : P.CarriesToken m.Alg cl)
    (hkeys : P.MatchingKeys key p.publicKey)
    (hsign : SignedString P m cl key = (tok, none))
    (htime : timeFlags cl now = 0)
    (hsub : strconv.ParseInt cl.Subject 0 = (n, none)) :
    p.Parse P now tok = (some { UserID := n }, none) := by
  obtain ⟨sig, hsig, hdec⟩ := SignedString_decodes hcodec
    (fun sig hs => (hkeys m _ sig hs).1.2) hsign
  obtain ⟨⟨hcar, _⟩, hver⟩ := hkeys m _ sig hsig
  have hV : m.Verify P (P.EncodeSegment (P.MarshalHeader m.Alg) ++ "." ++
      P.EncodeSegment (P.MarshalClaims cl)) (P.EncodeSegment sig) p.publicKey = none := by
    cases m <;> simp only [SigningMethod.isRSA, Bool.false_eq_true] at hm <;>
      simp only [SigningMethod.Verify, hcar, hver]
  have h0 := (ParseWithClaims_RSA now p hdec (GetSigningMethod_Alg m) hm).1
    (by rw [htime, hV]; rfl)
  unfold RSATokenParser.Parse
  rw [h0]
  exact fromResult_valid_ok _ _ _ n rfl hsub

/-- The method `Parse` on a token made by `SignedString` whose `exp` is set and has passed returns
`ErrTokenExpired`, whatever the signature check says. -/
theorem Parse_SignedString_expired (P : Primitives) (now : time.Time) (p : RSATokenParser)
    (m : SigningMethod) (cl : StandardClaims) (key : PrivateKey) (tok : String)
    (hm : m.isRSA = true) (hcodec : P.CarriesToken m.Alg cl)
    (hfits : P.SignatureFits key)
    (hsign : SignedString P m cl key = (tok, none))
    (hexp : verifyExp cl.ExpiresAt now.Unix false = false) :
    p.Parse P now tok = (none, some ErrTokenExpired) := by
  obtain ⟨sig, hsig, hdec⟩ := SignedString_decodes hcodec (fun sig hs => hfits m _ sig hs) hsign
  obtain ⟨hmal, hflag⟩ := rejected_flags cl now
    (m.Verify P (P.EncodeSegment (P.MarshalHeader m.Alg) ++ "." ++
      P.EncodeSegment (P.MarshalClaims cl)) (P.EncodeSegment sig) p.publicKey)
  have hne := hflag.mpr (Or.inl hexp)
  obtain ⟨ve, hr, hve⟩ := (ParseWithClaims_RSA now p hdec (GetSigningMethod_Alg m) hm).2
    (fun h0 => hne (by rw [h0]; rfl))
  unfold RSATokenParser.Parse
  rw [hr, fromResult_validation _ _ _ (by intro tk h; cases h; rfl), hve, if_neg (by rw [hmal]; simp),
    if_pos hne]

end ctxtg

namespace demo

open jwt strconv

theorem not_mem_of_digits (x : Char) (hx : ¬ ('0' ≤ x ∧ x ≤ '9')) (u : Nat) :
    x ∉ (FormatInt (u : Int)).data := by
  unfold FormatInt
  rw [if_neg (by omega)]
  intro hmem
  exact hx (formatBits_digits 65 _ [] (by simp) x hmem)

/-- In the small instance, the public half of `privateKey` verifies what
`privateKey` signs. -/
theorem matchingKeys : primitives.MatchingKeys privateKey privateKey.PublicKey := by
  intro m msg sig h
  unfold Primitives.Carries
  simp only [primitives, privateKey, Except.ok.injEq] at h ⊢
  have hlt : digest msg % 33 < 33 := Nat.mod_lt _ (by norm_num)
  generalize digest msg % 33 = x at h hlt ⊢
  subst h
  refine ⟨⟨?_, ?_⟩, ?_⟩
  · rw [if_neg (not_mem_of_digits '!' (by decide) _)]
  · exact not_mem_of_digits '.' (by decide) _
  · interval_cases x <;> rfl

end demo

namespace ctxtg

open jwt

/-- The claims `Sign` writes pass every time check at an instant before `timeNow + timeout`. -/
theorem timeFlags_signClaims (timeNow now : time.Time) (c : Claims) (timeout : time.Duration)
    (hbefore : now.unixNano < (timeNow.Add timeout).unixNano) :
    timeFlags (signClaims timeNow c timeout) now = 0 := by
  have hle : now.Unix ≤ (timeNow.Add timeout).Unix := by
    unfold time.Time.Unix
    omega
  unfold timeFlags signClaims verifyExp verifyIat verifyNbf
  simp only [if_true, Bool.not_false]
  split <;> simp [hle]

/-- The library never returns a valid token together with an error. -/
theorem token_invalid_of_err (P : Primitives) (now : time.Time) (p : RSATokenParser)
    (t : String) (e : GoError) (h : (ParseWithClaims P now t p.keyFunc).err = some e) :
    ∀ tk, (ParseWithClaims P now t p.keyFunc).token = some tk → tk.Valid = false := by
  have ho := ParseWithClaims_outcome P now p t
  generalize ParseWithClaims P now t p.keyFunc = r at ho h
  cases ho with
  | malformed tok ve _ _ htok => exact htok
  | noMethod => intro tk htk; cases htk; rfl
  | notRSA => intro tk htk; cases htk; rfl
  | rejected => intro tk htk; cases htk; rfl
  | valid => cases h

/-- What `Parse` returns when the library's error is a `*jwt.ValidationError`. -/
theorem Parse_of_validation (P : Primitives) (now : time.Time) (p : RSATokenParser)
    (t : String) (ve : ValidationError)
    (h : (ParseWithClaims P now t p.keyFunc).err = some (.validation ve)) :
    p.Parse P now t =
      if ve.Errors &&& ValidationErrorMalformed ≠ 0 then (none, some ErrInvalidToken)
      else if ve.Errors &&& (ValidationErrorExpired ||| ValidationErrorNotValidYet) ≠ 0 then
        (none, some ErrTokenExpired)
      else (none, some (.validation ve)) := by
  have hinv := token_invalid_of_err P now p t _ h
  unfold RSATokenParser.Parse
  generalize ParseWithClaims P now t p.keyFunc = r at h hinv
  obtain ⟨tok, cl, err⟩ := r
  simp only at h hinv
  subst h
  exact fromResult_validation tok cl ve hinv

/-! ## The claims -/

set_option maxRecDepth 8000

/-- C1: for every claims `c` whose `UserID` is an `int64` and every ttl, with a signer and a
parser that hold matching keys, `Parse` applied to the token that `Sign(c, ttl)`
returned, at an instant before the expiry `timeNow + ttl`, returns claims equal to `c`
and the nil error. -/
theorem Parse_Sign_roundtrip (P : Primitives) (timeNow now : time.Time) (signer : RSATokenSigner)
    (parser : RSATokenParser) (c : Claims) (timeout : time.Duration) (tok : Token)
    (hid : -2 ^ 63 ≤ c.UserID ∧ c.UserID < 2 ^ 63)
    (hcodec : P.CarriesToken "RS256" (signClaims timeNow c timeout))
    (hkeys : P.MatchingKeys signer.privateKey parser.publicKey)
    (hsign : signer.Sign P timeNow c timeout = (tok, none))
    (hbefore : now.unixNano < (timeNow.Add timeout).unixNano) :
    parser.Parse P now tok = (some c, none) :=
  Parse_SignedString P now parser .RS256 (signClaims timeNow c timeout) signer.privateKey tok
    c.UserID rfl hcodec hkeys hsign (timeFlags_signClaims timeNow now c timeout hbefore)
    (strconv.ParseInt_FormatInt c.UserID hid.1 hid.2)

/-- C1, at `UserID = 42`, signed at 10 s with a ttl of 5 s and parsed at 12 s. -/
theorem Parse_Sign_roundtrip_witness :
    demo.signer.Sign demo.primitives ⟨10000000000⟩ ⟨42⟩ 5000000000 = ("RS256.42~15~0.20", none) ∧
      demo.parser.Parse demo.primitives ⟨12000000000⟩ "RS256.42~15~0.20" = (some ⟨42⟩, none) :=
  ⟨by decide,
    Parse_Sign_roundtrip demo.primitives ⟨10000000000⟩ ⟨12000000000⟩ demo.signer demo.parser ⟨42⟩
      5000000000 "RS256.42~15~0.20" (by decide) ⟨⟨rfl, by decide⟩, rfl, ⟨rfl, by decide⟩, rfl⟩
      demo.matchingKeys (by decide) (by decide)⟩

/-- C2, refuted as stated: a token signed at 10 s with a ttl of 5 s carries `exp = 15`, and
at 15.5 s, after the ttl has elapsed, `Parse` still returns the claims. -/
theorem Parse_after_ttl_counterexample :
    demo.signer.Sign demo.primitives ⟨10000000000⟩ ⟨42⟩ 5000000000 = ("RS256.42~15~0.20", none) ∧
      (10000000000 : Int) + 5000000000 < 15500000000 ∧
      demo.parser.Parse demo.primitives ⟨15500000000⟩ "RS256.42~15~0.20" = (some ⟨42⟩, none) ∧
      demo.parser.Parse demo.primitives ⟨15500000000⟩ "RS256.42~15~0.20" ≠
        (none, some ErrTokenExpired) :=
  ⟨by decide, by norm_num, by decide, by decide⟩

/-- C2, amended: `Parse` applied to the token that `Sign(c, ttl)` returned, at an instant
whose Unix second is later than the token's `exp` (the Unix second of
`timeNow + ttl`), that `exp` not being 0, returns `ErrTokenExpired` and nil claims. -/
theorem Parse_Sign_expired (P : Primitives) (timeNow now : time.Time) (signer : RSATokenSigner)
    (parser : RSATokenParser) (c : Claims) (timeout : time.Duration) (tok : Token)
    (hcodec : P.CarriesToken "RS256" (signClaims timeNow c timeout))
    (hfits : P.SignatureFits signer.privateKey)
    (hsign : signer.Sign P timeNow c timeout = (tok, none))
    (hexp : (timeNow.Add timeout).Unix ≠ 0)
    (hafter : (timeNow.Add timeout).Unix < now.Unix) :
    parser.Parse P now tok = (none, some ErrTokenExpired) := by
  refine Parse_SignedString_expired P now parser .RS256 (signClaims timeNow c timeout)
    signer.privateKey tok rfl hcodec hfits hsign ?_
  unfold verifyExp signClaims
  simp only [if_neg hexp, decide_eq_false_iff_not, not_le]
  exact hafter

/-- C2 amended, at a token signed at 10 s with a ttl of 5 s and parsed at 16 s. -/
theorem Parse_Sign_expired_witness :
    demo.parser.Parse demo.primitives ⟨16000000000⟩ "RS256.42~15~0.20" =
      (none, some ErrTokenExpired) :=
  Parse_Sign_expired demo.primitives ⟨10000000000⟩ ⟨16000000000⟩ demo.signer demo.parser ⟨42⟩
    5000000000 "RS256.42~15~0.20" ⟨⟨rfl, by decide⟩, rfl, ⟨rfl, by decide⟩, rfl⟩
    (fun m msg sig h => (demo.matchingKeys m msg sig h).1.2) (by decide) (by decide) (by decide)

/-- C3: for every token that is structurally malformed, in that it cannot be decoded or
in that the library's error for it is a `*jwt.ValidationError` carrying the malformed
flag (whatever other flags it carries), `Parse` returns the sentinel `ErrInvalidToken`
and nil claims. -/
theorem Parse_malformed (P : Primitives) (now : time.Time) (p : RSATokenParser) (t : Token)
    (h : (¬ ∃ p0 p1 p2 alg cl, DecodesTo P t p0 p1 p2 alg cl) ∨
      ∃ ve, (ParseWithClaims P now t p.keyFunc).err = some (.validation ve) ∧
        ve.Errors &&& ValidationErrorMalformed ≠ 0) :
    p.Parse P now t = (none, some ErrInvalidToken) := by
  rcases h with hdec | ⟨ve, herr, hflag⟩
  · obtain ⟨tok, ve, hr, hve, _⟩ := ParseWithClaims_malformed now p.keyFunc hdec
    rw [Parse_of_validation P now p t ve (by rw [hr]), hve]
    rfl
  · rw [Parse_of_validation P now p t ve herr, if_pos hflag]

/-- C3, at the token of `TestRSATokenParserMalformed`. -/
theorem Parse_malformed_witness :
    demo.parser.Parse demo.primitives ⟨12000000000⟩ "invalidkey.dsads.dsad" =
      (none, some ErrInvalidToken) :=
  Parse_malformed demo.primitives ⟨12000000000⟩ demo.parser "invalidkey.dsads.dsad"
    (Or.inr ⟨{ Inner := some (.text "json: cannot unmarshal"), Errors := ValidationErrorMalformed },
      by decide, by decide⟩)

/-- C4, on the code: for a decodable three-segment token whose header names a registered
method that is not of type `*jwt.SigningMethodRSA`, `Parse` does not return the
sentinel `ErrInvalidToken`; it returns the `*jwt.ValidationError` in which the library
wrapped the key function's `ErrInvalidToken`, with the unverifiable flag. -/
theorem Parse_notRSA_wrapped (P : Primitives) (now : time.Time) (p : RSATokenParser)
    (t : Token) (p0 p1 p2 a : String) (cl : StandardClaims) (m : SigningMethod)
    (hdec : DecodesTo P t p0 p1 p2 (some a) cl) (hm : GetSigningMethod a = some m)
    (hrsa : m.isRSA = false) :
    p.Parse P now t =
        (none, some (.validation { Inner := some (.jsonrpc2 1 "INVALID_TOKEN"),
                                   Errors := ValidationErrorUnverifiable })) ∧
      p.Parse P now t ≠ (none, some ErrInvalidToken) := by
  have h : p.Parse P now t =
      (none, some (.validation { Inner := some (.jsonrpc2 1 "INVALID_TOKEN"),
                                 Errors := ValidationErrorUnverifiable })) := by
    rw [Parse_of_validation P now p t _
      (by rw [ParseWithClaims_notRSA now p hdec hm hrsa])]
    rfl
  refine ⟨h, ?_⟩
  rw [h]
  decide

/-- C4, at a three-segment token naming HS256. -/
theorem Parse_notRSA_wrapped_witness :
    demo.parser.Parse demo.primitives ⟨12000000000⟩ "HS256.3~0~0.sig" =
        (none, some (.validation { Inner := some (.jsonrpc2 1 "INVALID_TOKEN"),
                                   Errors := ValidationErrorUnverifiable })) ∧
      demo.parser.Parse demo.primitives ⟨12000000000⟩ "HS256.3~0~0.sig" ≠
        (none, some ErrInvalidToken) :=
  Parse_notRSA_wrapped demo.primitives ⟨12000000000⟩ demo.parser "HS256.3~0~0.sig"
    "HS256" "3~0~0" "sig" "HS256" { Subject := "3" } .HS256
    ⟨by decide, "HS256", "3~0~0", rfl, rfl, rfl, rfl⟩ (by decide) rfl

/-- C5, refuted as stated: a token whose header names RS384, signed with the matching
private key and parsed before its expiry, is accepted: `Parse` returns its claims. -/
theorem Parse_RS384_counterexample :
    SignedString demo.primitives .RS384 { Subject := "42", ExpiresAt := 15 } demo.privateKey =
        ("RS384.42~15~0.25", none) ∧
      demo.parser.Parse demo.primitives ⟨12000000000⟩ "RS384.42~15~0.25" = (some ⟨42⟩, none) ∧
      demo.parser.Parse demo.primitives ⟨12000000000⟩ "RS384.42~15~0.25" ≠
        (none, some ErrInvalidToken) :=
  ⟨by decide, by decide, by decide⟩

/-- C5, amended: `Parse` accepts every method of type `*jwt.SigningMethodRSA`, that is
RS256, RS384 and RS512: a token whose header names one of them, signed by that method
with the matching private key, on which no time check fails and whose subject is a
base-10 numeral of an `int64` `n`, is parsed to the claims with `UserID = n`. -/
theorem Parse_RSA_family (P : Primitives) (now : time.Time) (p : RSATokenParser)
    (m : SigningMethod) (cl : StandardClaims) (key : PrivateKey) (tok : Token) (n : Int)
    (hm : m = .RS256 ∨ m = .RS384 ∨ m = .RS512)
    (hcodec : P.CarriesToken m.Alg cl)
    (hkeys : P.MatchingKeys key p.publicKey)
    (hsign : SignedString P m cl key = (tok, none))
    (htime : timeFlags cl now = 0)
    (hsub : strconv.IsBase10 cl.Subject n) (hn : -2 ^ 63 ≤ n ∧ n < 2 ^ 63) :
    p.Parse P now tok = (some { UserID := n }, none) :=
  Parse_SignedString P now p m cl key tok n (by rcases hm with h | h | h <;> subst h <;> rfl)
    hcodec hkeys hsign htime ((strconv.ParseInt_eq_ok cl.Subject n).mpr ⟨hsub, hn⟩)

/-- C5 amended, at a token naming RS512. -/
theorem Parse_RSA_family_witness :
    demo.parser.Parse demo.primitives ⟨12000000000⟩ "RS512.42~15~0.15" = (some ⟨42⟩, none) :=
  Parse_RSA_family demo.primitives ⟨12000000000⟩ demo.parser .RS512
    { Subject := "42", ExpiresAt := 15 } demo.privateKey "RS512.42~15~0.15" 42
    (Or.inr (Or.inr rfl)) ⟨⟨rfl, by decide⟩, rfl, ⟨rfl, by decide⟩, rfl⟩ demo.matchingKeys
    (by decide) (by decide)
    ⟨['4', '2'], by decide, by decide, Or.inl ⟨Or.inl rfl, by decide⟩⟩ (by decide)

/-- C6: for every decodable token whose method is of type `*jwt.SigningMethodRSA`, whose
signature verifies and on which no time check fails, if the subject (empty when the
field is absent) is not a base-10 numeral of an `int64`, `Parse` returns the sentinel
`ErrInvalidToken` and nil claims. -/
theorem Parse_bad_subject (P : Primitives) (now : time.Time) (p : RSATokenParser)
    (t : Token) (p0 p1 p2 a : String) (cl : StandardClaims) (m : SigningMethod)
    (hdec : DecodesTo P t p0 p1 p2 (some a) cl) (hm : GetSigningMethod a = some m)
    (hrsa : m.isRSA = true)
    (hver : m.Verify P (p0 ++ "." ++ p1) p2 p.publicKey = none)
    (htime : timeFlags cl now = 0)
    (hsub : ¬ ∃ n : Int, strconv.IsBase10 cl.Subject n ∧ -2 ^ 63 ≤ n ∧ n < 2 ^ 63) :
    p.Parse P now t = (none, some ErrInvalidToken) := by
  have h0 := (ParseWithClaims_RSA now p hdec hm hrsa).1 (by rw [htime, hver]; rfl)
  unfold RSATokenParser.Parse
  rw [h0]
  exact fromResult_valid_err _ _ _ rfl
    (fun hnone => hsub ((strconv.ParseInt_err_eq_none cl.Subject).mp hnone))

/-- C6, at a signed, unexpired token whose subject is `id3`. -/
theorem Parse_bad_subject_witness :
    demo.parser.Parse demo.primitives ⟨12000000000⟩ "RS256.id3~15~0.9" =
      (none, some ErrInvalidToken) :=
  Parse_bad_subject demo.primitives ⟨12000000000⟩ demo.parser "RS256.id3~15~0.9"
    "RS256" "id3~15~0" "9" "RS256" { Subject := "id3", ExpiresAt := 15 } .RS256
    ⟨by decide, "RS256", "id3~15~0", rfl, rfl, rfl, rfl⟩ (by decide) rfl (by decide) (by decide)
    (fun h => absurd ((strconv.ParseInt_err_eq_none "id3").mpr h) (by decide))

/-- Whatever the library returned, claims come out of `Parse` only with the nil error,
and then `ParseInt` read them from the subject. -/
theorem fromResult_claims (r : ParseResult) (c : Claims) (e : Option GoError)
    (h : RSATokenParser.fromResult r = (some c, e)) :
    e = none ∧ strconv.ParseInt r.claims.Subject 0 = (c.UserID, none) := by
  unfold RSATokenParser.fromResult at h
  dsimp only at h
  split at h
  · rcases hp : strconv.ParseInt r.claims.Subject 0 with ⟨v, _ | err⟩
    · rw [hp] at h
      simp only [Prod.mk.injEq, Option.some.injEq] at h
      obtain ⟨hc, he⟩ := h
      subst hc
      exact ⟨he.symm, rfl⟩
    · rw [hp] at h
      simp at h
  · split at h
    · split at h
      · simp at h
      · split at h <;> simp at h
    · simp at h

/-- C7, refuted as stated: `Sign` writes a negative `UserID` and `Parse` succeeds on the
token with that negative `UserID`. -/
theorem Parse_negative_counterexample :
    demo.signer.Sign demo.primitives ⟨10000000000⟩ ⟨-5⟩ 5000000000 = ("RS256.-5~15~0.10", none) ∧
      demo.parser.Parse demo.primitives ⟨12000000000⟩ "RS256.-5~15~0.10" = (some ⟨-5⟩, none) ∧
      ¬ (0 ≤ (⟨-5⟩ : Claims).UserID) :=
  ⟨by decide, by decide, by decide⟩

/-- C7, amended: for every token on which `Parse` succeeds, the returned `UserID` is the
integer, negative or not, of which the token's subject is a base-10 numeral, and it
lies in the range of `int64`. -/
theorem Parse_UserID (P : Primitives) (now : time.Time) (p : RSATokenParser) (t : Token)
    (c : Claims) (h : p.Parse P now t = (some c, none)) :
    strconv.IsBase10 (ParseWithClaims P now t p.keyFunc).claims.Subject c.UserID ∧
      -2 ^ 63 ≤ c.UserID ∧ c.UserID < 2 ^ 63 :=
  (strconv.ParseInt_eq_ok _ _).mp (fromResult_claims _ c none h).2

/-- C7 amended, at the token `Parse` reads `UserID = -5` from. -/
theorem Parse_UserID_witness :
    strconv.IsBase10 (ParseWithClaims demo.primitives ⟨12000000000⟩ "RS256.-5~15~0.10"
        demo.parser.keyFunc).claims.Subject (-5) ∧
      -2 ^ 63 ≤ (-5 : Int) ∧ (-5 : Int) < 2 ^ 63 :=
  Parse_UserID demo.primitives ⟨12000000000⟩ demo.parser "RS256.-5~15~0.10" ⟨-5⟩ (by decide)

/-- C8: whenever the library's error for a token is a `*jwt.ValidationError` that carries
neither the malformed flag nor the expired or not-yet-valid flag, `Parse` returns
that same error value and nil claims; the error is neither `ErrInvalidToken` nor
`ErrTokenExpired`. -/
theorem Parse_other_error (P : Primitives) (now : time.Time) (p : RSATokenParser) (t : Token)
    (ve : ValidationError)
    (herr : (ParseWithClaims P now t p.keyFunc).err = some (.validation ve))
    (hmal : ve.Errors &&& ValidationErrorMalformed = 0)
    (htime : ve.Errors &&& (ValidationErrorExpired ||| ValidationErrorNotValidYet) = 0) :
    p.Parse P now t = (none, (ParseWithClaims P now t p.keyFunc).err) ∧
      (p.Parse P now t).2 ≠ some ErrInvalidToken ∧
      (p.Parse P now t).2 ≠ some ErrTokenExpired := by
  have h : p.Parse P now t = (none, some (.validation ve)) := by
    rw [Parse_of_validation P now p t ve herr, if_neg (by simp [hmal]), if_neg (by simp [htime])]
  rw [h, herr]
  exact ⟨rfl, by simp [ErrInvalidToken], by simp [ErrTokenExpired]⟩

/-- C8, at an unexpired token whose signature does not verify. -/
theorem Parse_other_error_witness :
    demo.parser.Parse demo.primitives ⟨12000000000⟩ "RS256.42~15~0.8" =
        (none, (ParseWithClaims demo.primitives ⟨12000000000⟩ "RS256.42~15~0.8"
          demo.parser.keyFunc).err) ∧
      (demo.parser.Parse demo.primitives ⟨12000000000⟩ "RS256.42~15~0.8").2 ≠
        some ErrInvalidToken ∧
      (demo.parser.Parse demo.primitives ⟨12000000000⟩ "RS256.42~15~0.8").2 ≠
        some ErrTokenExpired :=
  Parse_other_error demo.primitives ⟨12000000000⟩ demo.parser "RS256.42~15~0.8"
    { Inner := some (.text "crypto/rsa: verification error"),
      Errors := ValidationErrorSignatureInvalid }
    (by decide) (by decide) (by decide)

/-- C9, refuted as stated: an expired token whose signature does not verify yields
`ErrTokenExpired`. -/
theorem Parse_expired_bad_signature_counterexample :
    SigningMethod.Verify demo.primitives .RS256 "RS256.42~15~0" "8" demo.parser.publicKey =
        some (.text "crypto/rsa: verification error") ∧
      demo.parser.Parse demo.primitives ⟨16000000000⟩ "RS256.42~15~0.8" =
        (none, some ErrTokenExpired) :=
  ⟨by decide, by decide⟩

/-- C9, amended: if `Parse` returns `ErrTokenExpired` then the token decodes, names a
method of type `*jwt.SigningMethodRSA`, and fails the expiry check or the not-before
check; the signature and issued-at checks may have failed as well. -/
theorem Parse_expired_only_if (P : Primitives) (now : time.Time) (p : RSATokenParser)
    (t : Token) (h : p.Parse P now t = (none, some ErrTokenExpired)) :
    ∃ p0 p1 p2 a cl m, DecodesTo P t p0 p1 p2 (some a) cl ∧ GetSigningMethod a = some m ∧
      m.isRSA = true ∧
      (verifyExp cl.ExpiresAt now.Unix false = false ∨
        verifyNbf cl.NotBefore now.Unix false = false) := by
  have ho := ParseWithClaims_outcome P now p t
  unfold RSATokenParser.Parse at h
  generalize ParseWithClaims P now t p.keyFunc = r at ho h
  cases ho with
  | malformed tok ve _ hve htok =>
    rw [fromResult_validation _ _ _ htok, hve, if_pos (by decide)] at h
    exact absurd h (by decide)
  | noMethod p0 p1 p2 alg cl ve _ _ hve =>
    rw [fromResult_validation _ _ _ (by intro tk htk; cases htk; rfl), hve,
      if_neg (by decide), if_neg (by decide)] at h
    simp [ErrTokenExpired] at h
  | notRSA =>
    rw [fromResult_validation _ _ _ (by intro tk htk; cases htk; rfl)] at h
    exact absurd h (by decide)
  | rejected p0 p1 p2 a cl m ve hdec hm hrsa hve hne =>
    obtain ⟨hmal, hflag⟩ := rejected_flags cl now (m.Verify P (p0 ++ "." ++ p1) p2 p.publicKey)
    rw [fromResult_validation _ _ _ (by intro tk htk; cases htk; rfl), hve,
      if_neg (by rw [hmal]; simp)] at h
    by_cases hb : (timeFlags cl now ||| sigFlag (m.Verify P (p0 ++ "." ++ p1) p2 p.publicKey)) &&&
        (ValidationErrorExpired ||| ValidationErrorNotValidYet) ≠ 0
    · exact ⟨p0, p1, p2, a, cl, m, hdec, hm, hrsa, hflag.mp hb⟩
    · rw [if_neg hb] at h
      simp [ErrTokenExpired] at h
  | valid p0 p1 p2 a cl m =>
    rcases hp : strconv.ParseInt cl.Subject 0 with ⟨v, _ | err⟩
    · rw [fromResult_valid_ok _ _ _ v rfl hp] at h
      simp at h
    · rw [fromResult_valid_err _ _ _ rfl (by rw [hp]; simp)] at h
      exact absurd h (by decide)

/-- C9 amended, at an expired token. -/
theorem Parse_expired_only_if_witness :
    ∃ p0 p1 p2 a cl m, DecodesTo demo.primitives "RS256.42~15~0.8" p0 p1 p2 (some a) cl ∧
      GetSigningMethod a = some m ∧ m.isRSA = true ∧
      (verifyExp cl.ExpiresAt (⟨16000000000⟩ : time.Time).Unix false = false ∨
        verifyNbf cl.NotBefore (⟨16000000000⟩ : time.Time).Unix false = false) :=
  Parse_expired_only_if demo.primitives ⟨16000000000⟩ demo.parser "RS256.42~15~0.8" (by decide)

/-- C10: for every token, `Parse` returns nil claims or the nil error: non-nil claims come
only with the nil error, and a non-nil error only with nil claims. -/
theorem Parse_claims_or_error (P : Primitives) (now : time.Time) (p : RSATokenParser)
    (t : Token) : (p.Parse P now t).1 = none ∨ (p.Parse P now t).2 = none := by
  rcases hp : p.Parse P now t with ⟨_ | c, e⟩
  · exact Or.inl rfl
  · exact Or.inr (fromResult_claims _ c e hp).1

/-! ## Lemmas and claims: ctxtg.go, the wrappers of Parse, ctxtgtest -/

theorem ToContext_fst (c : Context) :
    c.ToContext.1 =
      (let base : context.Context :=
        if c.Deadline ≤ 0 then .cancelCtx .emptyCtx
        else .timerCtx .emptyCtx (time.Unix c.Deadline 0)
      let ctx : context.Context :=
        .valueCtx (.valueCtx base TokenKey (some (.token c.Token))) TracingIDKey
          (some (.string c.TracingID))
      match c.Data with
      | some m => .valueCtx ctx DataKey (some (.data (some m)))
      | none => ctx) := by
  unfold Context.ToContext contextFromDeadline
  by_cases hd : c.Deadline ≤ 0
  · cases hD : c.Data <;> simp [hd, context.WithCancel, context.WithValue, context.Background]
  · cases hD : c.Data <;>
      simp [hd, context.WithDeadline, context.WithValue, context.Background, context.Context.Deadline]

theorem ToContext_snd (c : Context) :
    c.ToContext.2 =
      some ⟨if c.Deadline ≤ 0 then .cancelCtx .emptyCtx
        else .timerCtx .emptyCtx (time.Unix c.Deadline 0)⟩ := by
  unfold Context.ToContext contextFromDeadline
  by_cases hd : c.Deadline ≤ 0
  · simp [hd, context.WithCancel, context.Background]
  · simp [hd, context.WithDeadline, context.Background, context.Context.Deadline]

theorem Unix_Unix (sec : Int) : (time.Unix sec 0).Unix = sec := by
  unfold time.Unix time.Time.Unix
  simp

set_option maxRecDepth 8000

/-- C11: for every token `t` and callback `f`, if `Parse(t)` fails then `ParseWithClaims(t, f)`
does not invoke `f` and returns exactly the error of `Parse`; if `Parse(t)` succeeds
with claims `c` then `f` is invoked exactly once, with `c`, and `ParseWithClaims`
completes exactly as `f` does. -/
theorem ParseWithClaims_calls {σ : Type} (P : Primitives) (now : time.Time)
    (p : RSATokenParser) (t : Token) (f : ClaimsFunc σ) (s : σ) :
    (∀ err, (p.Parse P now t).2 = some err →
      p.ParseWithClaims P now t f s = (.returned (some err), s, [])) ∧
    (∀ c, p.Parse P now t = (some c, none) →
      p.ParseWithClaims P now t f s =
        ((f c s).1, (f c s).2, [.call none c, .done (f c s).1])) := by
  unfold RSATokenParser.ParseWithClaims
  constructor
  · intro err h
    rcases hp : p.Parse P now t with ⟨c, e⟩
    rw [hp] at h
    simp only at h
    subst h
    cases c <;> rfl
  · intro c h
    rw [h]

/-- C11, at a token that parses to `UserID = 42` and at the token of
`TestParseWithClaimsParserErr`. -/
theorem ParseWithClaims_calls_witness :
    demo.parser.ParseWithClaims demo.primitives ⟨12000000000⟩ "RS256.42~15~0.20"
        demo.countingFunc 0 =
        (.returned none, 1, [.call none ⟨42⟩, .done (.returned none)]) ∧
      demo.parser.ParseWithClaims demo.primitives ⟨12000000000⟩ "dasfas" demo.countingFunc 0 =
        (.returned (some ErrInvalidToken), 0, []) :=
  ⟨(ParseWithClaims_calls demo.primitives ⟨12000000000⟩ demo.parser "RS256.42~15~0.20"
      demo.countingFunc 0).2 ⟨42⟩ (by decide),
    (ParseWithClaims_calls demo.primitives ⟨12000000000⟩ demo.parser "dasfas"
      demo.countingFunc 0).1 ErrInvalidToken (by decide)⟩

/-- C12: for every `Context` `cc` and callback `f`, when `Parse(cc.Token)` succeeds with
claims `c`, `ParseCtxWithClaims(cc, f)` invokes `f` exactly once, with the context
that `cc.ToContext()` returns and with `c`, and completes exactly as `f` does; when
`Parse(cc.Token)` fails it does not invoke `f` and returns the error of `Parse`. -/
theorem ParseCtxWithClaims_calls {σ : Type} (P : Primitives) (now : time.Time)
    (p : RSATokenParser) (cc : Context) (f : CtxClaimsFunc σ) (s : σ) :
    (∀ c, p.Parse P now cc.Token = (some c, none) →
      (p.ParseCtxWithClaims P now cc f s).1 = (f cc.ToContext.1 c s).1 ∧
        (p.ParseCtxWithClaims P now cc f s).2.1 = (f cc.ToContext.1 c s).2 ∧
        (p.ParseCtxWithClaims P now cc f s).2.2.filter Event.isCall =
          [.call (some cc.ToContext.1) c]) ∧
    (∀ err, (p.Parse P now cc.Token).2 = some err →
      (p.ParseCtxWithClaims P now cc f s).1 = .returned (some err) ∧
        (p.ParseCtxWithClaims P now cc f s).2.1 = s ∧
        (p.ParseCtxWithClaims P now cc f s).2.2.filter Event.isCall = []) := by
  unfold RSATokenParser.ParseCtxWithClaims
  constructor
  · intro c h
    rw [h]
    have hc := ToContext_snd cc
    rcases hT : cc.ToContext with ⟨ctx, cancel⟩
    rw [hT] at hc
    simp only at hc
    subst hc
    exact ⟨rfl, rfl, rfl⟩
  · intro err h
    rcases hp : p.Parse P now cc.Token with ⟨c, e⟩
    rw [hp] at h
    simp only at h
    subst h
    cases c <;> exact ⟨rfl, rfl, rfl⟩

/-- C12, at a `Context` whose token parses to `UserID = 42`, with a callback that
returns an error. -/
theorem ParseCtxWithClaims_calls_witness :
    (demo.parser.ParseCtxWithClaims demo.primitives ⟨12000000000⟩
        { Token := "RS256.42~15~0.20" } demo.failingCtxFunc 0).1 =
        .returned (some (.plain (.text "failed"))) ∧
      (demo.parser.ParseCtxWithClaims demo.primitives ⟨12000000000⟩
        { Token := "RS256.42~15~0.20" } demo.failingCtxFunc 0).2.1 = 1 ∧
      (demo.parser.ParseCtxWithClaims demo.primitives ⟨12000000000⟩
        { Token := "RS256.42~15~0.20" } demo.failingCtxFunc 0).2.2.filter Event.isCall =
        [.call (some (Context.ToContext { Token := "RS256.42~15~0.20" }).1) ⟨42⟩] :=
  (ParseCtxWithClaims_calls demo.primitives ⟨12000000000⟩ demo.parser
    { Token := "RS256.42~15~0.20" } demo.failingCtxFunc 0).1 ⟨42⟩ (by decide)

/-- C13: in every execution of `ParseCtxWithClaims` in which the token parses, whether the
callback returns nil or an error (or panics), the calls made are, in this order:
`ToContext`, the callback, the callback's completion, the cancel function obtained from
`ToContext`; so that function is invoked exactly once, after `f` and last.  In every
execution in which the token fails to parse no call is made: no platform context and
no cancel function is created. -/
theorem ParseCtxWithClaims_cancel {σ : Type} (P : Primitives) (now : time.Time)
    (p : RSATokenParser) (cc : Context) (f : CtxClaimsFunc σ) (s : σ) :
    (∀ c, p.Parse P now cc.Token = (some c, none) →
      ∃ cancel, cc.ToContext.2 = some cancel ∧
        (p.ParseCtxWithClaims P now cc f s).2.2 =
          [.toContext cc.ToContext.1, .call (some cc.ToContext.1) c,
            .done (f cc.ToContext.1 c s).1, .cancel cancel.target]) ∧
    (∀ err, (p.Parse P now cc.Token).2 = some err →
      (p.ParseCtxWithClaims P now cc f s).2.2 = []) := by
  unfold RSATokenParser.ParseCtxWithClaims
  constructor
  · intro c h
    rw [h]
    have hc := ToContext_snd cc
    rcases hT : cc.ToContext with ⟨ctx, cancel⟩
    rw [hT] at hc
    simp only at hc
    subst hc
    exact ⟨_, rfl, rfl⟩
  · intro err h
    rcases hp : p.Parse P now cc.Token with ⟨c, e⟩
    rw [hp] at h
    simp only at h
    subst h
    cases c <;> rfl

/-- C13, at a `Context` whose token parses to `UserID = 42`, with a callback that
returns an error. -/
theorem ParseCtxWithClaims_cancel_witness :
    ∃ cancel, (Context.ToContext { Token := "RS256.42~15~0.20" }).2 = some cancel ∧
      (demo.parser.ParseCtxWithClaims demo.primitives ⟨12000000000⟩
        { Token := "RS256.42~15~0.20" } demo.failingCtxFunc 0).2.2 =
        [.toContext (Context.ToContext { Token := "RS256.42~15~0.20" }).1,
          .call (some (Context.ToContext { Token := "RS256.42~15~0.20" }).1) ⟨42⟩,
          .done (.returned (some (.plain (.text "failed")))), .cancel cancel.target] :=
  (ParseCtxWithClaims_cancel demo.primitives ⟨12000000000⟩ demo.parser
    { Token := "RS256.42~15~0.20" } demo.failingCtxFunc 0).1 ⟨42⟩ (by decide)

end ctxtg

namespace ctxtg

/-- What `FromContext` reads from the context `ToContext` builds. -/
theorem FromContext_after_ToContext (c : Context) :
    FromContext c.ToContext.1 =
      { Token := c.Token, Deadline := if 0 < c.Deadline then c.Deadline else 0,
        TracingID := c.TracingID, Data := c.Data } := by
  rw [ToContext_fst]
  unfold FromContext tokenValue stringValue DataFromContext unixDeadline
  by_cases hd : c.Deadline ≤ 0
  · have hd' : ¬ 0 < c.Deadline := not_lt.mpr hd
    cases hD : c.Data <;>
      simp [hd, hd', context.Context.Value, context.Context.Deadline, TokenKey, TracingIDKey,
        DataKey]
  · have hd' : 0 < c.Deadline := not_le.mp hd
    cases hD : c.Data <;>
      simp [hd, hd', context.Context.Value, context.Context.Deadline, TokenKey, TracingIDKey,
        DataKey, Unix_Unix]

/-- C14: for every `Context` `c`, `FromContext` of the context returned by `c.ToContext()`
has the `Token`, `TracingID` and `Data` (the same map) of `c`, and its `Deadline` is
`c.Deadline` when `c.Deadline > 0` and 0 when `c.Deadline <= 0`. -/
theorem FromContext_ToContext (c : Context) :
    (FromContext c.ToContext.1).Token = c.Token ∧
      (FromContext c.ToContext.1).TracingID = c.TracingID ∧
      (FromContext c.ToContext.1).Data = c.Data ∧
      (0 < c.Deadline → (FromContext c.ToContext.1).Deadline = c.Deadline) ∧
      (c.Deadline ≤ 0 → (FromContext c.ToContext.1).Deadline = 0) := by
  rw [FromContext_after_ToContext]
  refine ⟨rfl, rfl, rfl, fun h => if_pos h, fun h => if_neg (not_lt.mpr h)⟩

/-- C14, at a `Context` with the deadline 1700000000. -/
theorem FromContext_ToContext_witness :
    (FromContext (Context.ToContext
      { Token := "tokentest", Deadline := 1700000000, TracingID := "123123",
        Data := some 0 }).1).Deadline = 1700000000 :=
  (FromContext_ToContext
    { Token := "tokentest", Deadline := 1700000000, TracingID := "123123",
      Data := some 0 }).2.2.2.1 (by decide)

/-- C15, refuted as stated: for the context with a deadline 5 s before the Unix epoch,
`FromContext` gives `Deadline = -5`, and converting that back and forth gives
`Deadline = 0`. -/
theorem FromToContext_counterexample :
    FromContext (context.WithDeadline context.Background (time.Unix (-5) 0)).1 =
        { Deadline := -5 } ∧
      FromContext
          (FromContext (context.WithDeadline context.Background (time.Unix (-5) 0)).1).ToContext.1 =
        { Deadline := 0 } ∧
      FromContext
          (FromContext (context.WithDeadline context.Background (time.Unix (-5) 0)).1).ToContext.1 ≠
        FromContext (context.WithDeadline context.Background (time.Unix (-5) 0)).1 :=
  ⟨by decide, by decide, by decide⟩

/-- C15, amended: for every platform context `ctx` that has no deadline or whose deadline
is not before the Unix epoch, letting `c = FromContext(ctx)`, `FromContext` of the
context returned by `c.ToContext()` equals `c` field by field, `Data` being the same
map. -/
theorem FromToContext (ctx : context.Context)
    (h : ∀ d, ctx.Deadline = some d → 0 ≤ d.Unix) :
    FromContext (FromContext ctx).ToContext.1 = FromContext ctx := by
  rw [FromContext_after_ToContext]
  have hd : 0 ≤ (FromContext ctx).Deadline := by
    show 0 ≤ unixDeadline ctx
    unfold unixDeadline
    cases hD : ctx.Deadline with
    | none => exact le_refl _
    | some d => exact h d hD
  have : (if 0 < (FromContext ctx).Deadline then (FromContext ctx).Deadline else 0) =
      (FromContext ctx).Deadline := by
    split
    · rfl
    · omega
  rw [this]

/-- C15 amended, at the context of `TestFromToContext` with the deadline 1700000000. -/
theorem FromToContext_witness :
    FromContext (FromContext (context.WithDeadline
        (context.WithValue (context.WithValue (context.WithValue (context.WithValue
          context.Background TokenKey (some (.string "tokentest")))
          TracingIDKey (some (.string "123123"))) DataKey (some (.data (some 0))))
          (.ctxtg 10325234562343) (some (.int 234)))
        (time.Unix 1700000000 0)).1).ToContext.1 =
      FromContext (context.WithDeadline
        (context.WithValue (context.WithValue (context.WithValue (context.WithValue
          context.Background TokenKey (some (.string "tokentest")))
          TracingIDKey (some (.string "123123"))) DataKey (some (.data (some 0))))
          (.ctxtg 10325234562343) (some (.int 234)))
        (time.Unix 1700000000 0)).1 :=
  FromToContext _ (by
    intro d hd
    have : d = time.Unix 1700000000 0 := by
      simp [context.WithDeadline, context.WithValue, context.Background,
        context.Context.Deadline] at hd
      exact hd.symm
    subst this
    decide)

/-- C16: for every `Context` `c`, the context returned by `c.ToContext()` has a deadline
exactly when `c.Deadline > 0`, and then the deadline is `c.Deadline` whole seconds after
the Unix epoch; it holds `c.Token` under `TokenKey` and `c.TracingID` under
`TracingIDKey`, and under `DataKey` it holds `c.Data` when `c.Data` is not nil and
nothing otherwise; the returned cancel function is not nil. -/
theorem ToContext_fields (c : Context) :
    c.ToContext.1.Deadline = (if 0 < c.Deadline then some (time.Unix c.Deadline 0) else none) ∧
      (time.Unix c.Deadline 0).unixNano = c.Deadline * 1000000000 ∧
      c.ToContext.1.Value TokenKey = some (.token c.Token) ∧
      c.ToContext.1.Value TracingIDKey = some (.string c.TracingID) ∧
      c.ToContext.1.Value DataKey = c.Data.map (fun m => Value.data (some m)) ∧
      c.ToContext.2 ≠ none := by
  rw [ToContext_fst, ToContext_snd]
  refine ⟨?_, by simp [time.Unix], ?_, ?_, ?_, by simp⟩
  · by_cases hd : c.Deadline ≤ 0
    · have hd' : ¬ 0 < c.Deadline := not_lt.mpr hd
      cases hD : c.Data <;> simp [hd, hd', context.Context.Deadline]
    · have hd' : 0 < c.Deadline := not_le.mp hd
      cases hD : c.Data <;> simp [hd, hd', context.Context.Deadline]
  · cases hD : c.Data <;> simp [context.Context.Value, TokenKey, TracingIDKey, DataKey]
  · cases hD : c.Data <;> simp [context.Context.Value, TokenKey, TracingIDKey, DataKey]
  · by_cases hd : c.Deadline ≤ 0 <;> cases hD : c.Data <;>
      simp [hd, context.Context.Value, TokenKey, TracingIDKey, DataKey]

/-- C17: for every platform context `ctx`, `FromContext(ctx)` has as `Token` the value under
`TokenKey` when that is a `Token` and the empty token otherwise, as `TracingID` the
value under `TracingIDKey` when that is a `string` and the empty string otherwise, as
`Data` the value under `DataKey` when that is a `map[string]interface{}` and nil
otherwise, and as `Deadline` the Unix second of the deadline when one is set and 0
otherwise; a value under any other key does not change the result; and `FromContext`
of the background context is the zero `Context`. -/
theorem FromContext_fields (ctx : context.Context) :
    (FromContext ctx).Token =
        (match ctx.Value TokenKey with
          | some (.token t) => t
          | _ => "") ∧
      (FromContext ctx).TracingID =
        (match ctx.Value TracingIDKey with
          | some (.string s) => s
          | _ => "") ∧
      (FromContext ctx).Data =
        (match ctx.Value DataKey with
          | some (.data m) => m
          | _ => none) ∧
      (FromContext ctx).Deadline =
        (match ctx.Deadline with
          | some d => d.Unix
          | none => 0) ∧
      (∀ (k : Key) (v : Option Value), k ≠ TokenKey → k ≠ TracingIDKey → k ≠ DataKey →
        FromContext (context.WithValue ctx k v) = FromContext ctx) ∧
      FromContext context.Background = { Token := "", Deadline := 0, TracingID := "", Data := none } := by
  refine ⟨rfl, rfl, rfl, rfl, ?_, rfl⟩
  intro k v h1 h2 h3
  unfold FromContext tokenValue stringValue DataFromContext unixDeadline
  simp [context.WithValue, context.Context.Value, context.Context.Deadline, h1, h2, h3]

/-- C17, at the background context with a value under the key `key(1000000000)`. -/
theorem FromContext_fields_witness :
    FromContext (context.WithValue context.Background (.ctxtg 1000000000) (some (.int 234))) =
      FromContext context.Background :=
  (FromContext_fields context.Background).2.2.2.2.1 (.ctxtg 1000000000) (some (.int 234))
    (by decide) (by decide) (by decide)

end ctxtg

theorem MapData.get_filter_ne (m : MapData) (k k' : String) (h : k' ≠ k) :
    MapData.get (m.filter (fun e => decide (e.1 ≠ k))) k' = MapData.get m k' := by
  induction m with
  | nil => rfl
  | cons e rest ih =>
    obtain ⟨ek, ev⟩ := e
    by_cases hek : ek = k
    · subst hek
      have : ek ≠ k' := fun e => h e.symm
      simp only [List.filter, ne_eq, not_true_eq_false, decide_False, MapData.get, if_neg this]
      exact ih
    · simp only [List.filter, ne_eq, hek, not_false_eq_true, decide_True, MapData.get]
      rw [ih]

theorem MapData.get_set_eq (m : MapData) (k : String) (v : Option Value) :
    (m.set k v).get k = v := by
  simp [MapData.set, MapData.get]

theorem MapData.get_set_ne (m : MapData) (k k' : String) (v : Option Value) (h : k' ≠ k) :
    (m.set k v).get k' = m.get k' := by
  unfold MapData.set
  rw [MapData.get, if_neg (fun e => h e.symm)]
  exact MapData.get_filter_ne m k k' h

theorem MapData.get_of_not_has (m : MapData) (k : String) (h : m.has k = false) :
    m.get k = none := by
  induction m with
  | nil => rfl
  | cons e rest ih =>
    obtain ⟨ek, ev⟩ := e
    simp only [MapData.has, List.any_cons, Bool.or_eq_false_iff, decide_eq_false_iff_not] at h
    rw [MapData.get, if_neg h.1]
    exact ih h.2

namespace ctxtg

/-- C18: for every platform context `ctx`, keys `k` and `k'` and value `v`, after
`WithDataValue(ctx, k, v)` the call `ValueFromData` on the returned context gives `v`
for `k' = k` and gives what `ValueFromData(ctx, k')` gave before the call for
`k' != k`; and `ValueFromData(ctx, k')` is nil whenever `ctx` carries no Data map or
the map has no entry for `k'`. -/
theorem ValueFromData_WithDataValue (ctx : context.Context) (k k' : String) (v : Option Value)
    (h : Heap) :
    ValueFromData (WithDataValue ctx k v h).1 k' (WithDataValue ctx k v h).2 =
        (if k' = k then v else ValueFromData ctx k' h) ∧
      (DataFromContext ctx = none → ValueFromData ctx k' h = none) ∧
      (∀ m, DataFromContext ctx = some m → (h.maps m).has k' = false →
        ValueFromData ctx k' h = none) := by
  refine ⟨?_, ?_, ?_⟩
  · unfold WithDataValue ValueFromData
    cases hD : DataFromContext ctx with
    | none =>
      simp only [Heap.alloc, context.WithValue, DataFromContext, context.Context.Value, if_true]
      by_cases hk : k' = k
      · subst hk
        simp [MapData.get]
      · have hk' : ¬ k = k' := fun e => hk e.symm
        simp [MapData.get, hk, hk']
    | some m =>
      simp only [hD, Heap.write, if_true]
      by_cases hk : k' = k
      · subst hk
        simp [MapData.get_set_eq]
      · simp [hk, MapData.get_set_ne _ _ _ _ hk]
  · intro hD
    unfold ValueFromData
    rw [hD]
  · intro m hD hhas
    unfold ValueFromData
    rw [hD]
    exact MapData.get_of_not_has _ _ hhas

/-- C18, at the background context, which carries no Data map. -/
theorem ValueFromData_WithDataValue_witness :
    ValueFromData context.Background "no such key" demo.heap = none :=
  (ValueFromData_WithDataValue context.Background "key" "no such key"
    (some (.string "value")) demo.heap).2.1 rfl

/-- C19: when `parent` carries the Data map `m`, `WithDataValue(parent, k, v)` returns
`parent` itself, allocates no map, and writes `k -> v` into `m` in place, leaving every
other map as it was; the entry is then read through every context that carries `m`,
and a second call on the returned context writes into the same map `m`.  When
`parent` carries no Data map, every existing map is left as it was and the result is a
child of `parent` that holds, under `DataKey`, a newly allocated map with the one
entry `k -> v`. -/
theorem WithDataValue_in_place (parent : context.Context) (k : String) (v : Option Value)
    (h : Heap) :
    (∀ m, DataFromContext parent = some m →
      (WithDataValue parent k v h).1 = parent ∧
        (WithDataValue parent k v h).2.next = h.next ∧
        (WithDataValue parent k v h).2.maps m = (h.maps m).set k v ∧
        (∀ m', m' ≠ m → (WithDataValue parent k v h).2.maps m' = h.maps m') ∧
        (∀ ctx, DataFromContext ctx = some m →
          ValueFromData ctx k (WithDataValue parent k v h).2 = v) ∧
        (∀ k2 v2,
          (WithDataValue (WithDataValue parent k v h).1 k2 v2 (WithDataValue parent k v h).2).1 =
              parent ∧
            (WithDataValue (WithDataValue parent k v h).1 k2 v2
              (WithDataValue parent k v h).2).2.maps m = ((h.maps m).set k v).set k2 v2)) ∧
      (DataFromContext parent = none →
        (WithDataValue parent k v h).1 =
            context.WithValue parent DataKey (some (.data (some h.next))) ∧
          (WithDataValue parent k v h).2.next = h.next + 1 ∧
          (WithDataValue parent k v h).2.maps h.next = [(k, v)] ∧
          (∀ m', m' ≠ h.next → (WithDataValue parent k v h).2.maps m' = h.maps m')) := by
  constructor
  · intro m hD
    have hW : WithDataValue parent k v h = (parent, h.write m k v) := by
      unfold WithDataValue
      rw [hD]
    rw [hW]
    refine ⟨rfl, rfl, by simp [Heap.write], ?_, ?_, ?_⟩
    · intro m' hm'
      simp [Heap.write, hm']
    · intro ctx hctx
      unfold ValueFromData
      rw [hctx]
      simp [Heap.write, MapData.get_set_eq]
    · intro k2 v2
      have hW2 : WithDataValue parent k2 v2 (h.write m k v) =
          (parent, (h.write m k v).write m k2 v2) := by
        unfold WithDataValue
        rw [hD]
      dsimp only
      rw [hW2]
      exact ⟨rfl, by simp [Heap.write]⟩
  · intro hD
    have hW : WithDataValue parent k v h =
        (context.WithValue parent DataKey (some (.data (some h.next))), (h.alloc [(k, v)]).2) := by
      unfold WithDataValue
      rw [hD]
      rfl
    rw [hW]
    refine ⟨rfl, rfl, by simp [Heap.alloc], ?_⟩
    intro m' hm'
    simp [Heap.alloc, hm']

/-- C19, at a context that carries the map `{"key1": 1}`. -/
theorem WithDataValue_in_place_witness :
    (WithDataValue demo.dataContext "key" (some (.string "value")) demo.heap).1 =
        demo.dataContext ∧
      (WithDataValue demo.dataContext "key" (some (.string "value")) demo.heap).2.next = 1 ∧
      (WithDataValue demo.dataContext "key" (some (.string "value")) demo.heap).2.maps 0 =
        [("key", some (.string "value")), ("key1", some (.int 1))] :=
  have h := (WithDataValue_in_place demo.dataContext "key" (some (.string "value"))
    demo.heap).1 0 rfl
  ⟨h.1, h.2.1, h.2.2.1⟩

end ctxtg

namespace ctxtgtest

theorem Parser_step_fst {σ : Type} (ps : Parser × σ) (call : ParserCall σ) :
    (Parser.step ps call).1 = { ps.1 with called := true, token := call.token } := by
  obtain ⟨p, s⟩ := ps
  cases call with
  | parse token => rfl
  | parseWithClaims token f =>
    simp only [Parser.step, Parser.ParseWithClaims, Parser.Parse, ParserCall.token]
    cases p.Err <;> rfl
  | parseCtxWithClaims context f =>
    simp only [Parser.step, Parser.ParseCtxWithClaims, Parser.Parse, ParserCall.token]
    cases p.Err <;> rfl

theorem Parser_run_expected {σ : Type} (calls : List (ParserCall σ)) :
    ∀ (p : Parser) (s : σ), (Parser.run p s calls).1.TokenExpected = p.TokenExpected := by
  induction calls with
  | nil => intro p s; rfl
  | cons call rest ih =>
    intro p s
    have : Parser.run p s (call :: rest) =
        Parser.run (Parser.step (p, s) call).1 (Parser.step (p, s) call).2 rest := rfl
    rw [this, ih, Parser_step_fst]

theorem Parser_run_concat {σ : Type} (p : Parser) (s : σ) (calls : List (ParserCall σ))
    (call : ParserCall σ) :
    (Parser.run p s (calls ++ [call])).1 =
      { (Parser.run p s calls).1 with called := true, token := call.token } := by
  unfold Parser.run
  rw [List.foldl_append]
  exact Parser_step_fst _ _

theorem Signer_run_expected (calls : List (ctxtg.Claims × time.Duration)) :
    ∀ s : Signer, (Signer.run s calls).ClaimsExpected = s.ClaimsExpected ∧
      (Signer.run s calls).TimeoutExpected = s.TimeoutExpected := by
  induction calls with
  | nil => intro s; exact ⟨rfl, rfl⟩
  | cons call rest ih =>
    intro s
    have : Signer.run s (call :: rest) = Signer.run (s.Sign call.1 call.2).2 rest := rfl
    rw [this]
    exact ih _

theorem Signer_run_concat (s : Signer) (calls : List (ctxtg.Claims × time.Duration))
    (call : ctxtg.Claims × time.Duration) :
    Signer.run s (calls ++ [call]) =
      { Signer.run s calls with called := true, claims := call.1, timeout := call.2 } := by
  unfold Signer.run
  rw [List.foldl_append]
  rfl

/-- C20, refuted as stated: a `Parser` double that expects the token `good` and is called
with `bad` and then with `good` reports no error, although it was invoked with a token
other than the expected one. -/
theorem Parser_Error_counterexample :
    ((Parser.run { Claims := ⟨1⟩, Err := none, TokenExpected := "good" } ()
        [.parse "bad", .parse "good"]).1).Error = none ∧
      ("bad" : ctxtg.Token) ≠ "good" :=
  ⟨by decide, by decide⟩

/-- C20, amended: after any sequence of calls on a new double, `Error()` returns
`ErrMethodNotCalled` exactly when no call was made, and otherwise judges the
arguments of the latest call only: for a `Parser`, nil when the latest token is
`TokenExpected` and `ErrUnexpectedToken` when it is not; for a `Signer`,
`ErrUnexpectedClaims` when the latest claims differ from `ClaimsExpected`, else
`ErrUnexpectedTimeout` when the latest timeout differs from `TimeoutExpected`, else
nil. -/
theorem double_Error {σ : Type} (p : Parser) (s : σ) (calls : List (ParserCall σ))
    (sg : Signer) (signs : List (ctxtg.Claims × time.Duration))
    (hp : p.called = false) (hs : sg.called = false) :
    (Parser.run p s calls).1.Error =
        (match calls.getLast? with
          | none => some ErrMethodNotCalled
          | some call =>
            if p.TokenExpected = call.token then none else some ErrUnexpectedToken) ∧
      (Signer.run sg signs).Error =
        (match signs.getLast? with
          | none => some ErrMethodNotCalled
          | some call =>
            if sg.ClaimsExpected ≠ call.1 then some ErrUnexpectedClaims
            else if sg.TimeoutExpected ≠ call.2 then some ErrUnexpectedTimeout
            else none) := by
  constructor
  · rcases List.eq_nil_or_concat calls with rfl | ⟨L, b, rfl⟩
    · simp [Parser.run, Parser.Error, hp]
    · rw [List.concat_eq_append, Parser_run_concat, List.getLast?_append]
      have hexp := Parser_run_expected L p s
      simp only [List.getLast?_singleton, Option.or, Parser.Error, Bool.not_true,
        Bool.false_eq_true, if_false, hexp]
      by_cases h : p.TokenExpected = b.token <;> simp [h]
  · rcases List.eq_nil_or_concat signs with rfl | ⟨L, b, rfl⟩
    · simp [Signer.run, Signer.Error, hs]
    · rw [List.concat_eq_append, Signer_run_concat, List.getLast?_append]
      obtain ⟨h1, h2⟩ := Signer_run_expected L sg
      simp only [List.getLast?_singleton, Option.or, Signer.Error, Bool.not_true,
        Bool.false_eq_true, if_false, h1, h2]

/-- C20 amended, at a `Parser` double called with `bad` and then `good`, and a `Signer`
double called once with the expected claims and another timeout. -/
theorem double_Error_witness :
    ((Parser.run { Claims := ⟨1⟩, Err := none, TokenExpected := "good" } ()
        [.parse "bad", .parse "good"]).1).Error = none ∧
      (Signer.run { Token := "t", Err := none, ClaimsExpected := ⟨1⟩, TimeoutExpected := 5 }
        [(⟨1⟩, 6)]).Error = some ErrUnexpectedTimeout :=
  double_Error { Claims := ⟨1⟩, Err := none, TokenExpected := "good" } ()
    [.parse "bad", .parse "good"]
    { Token := "t", Err := none, ClaimsExpected := ⟨1⟩, TimeoutExpected := 5 } [(⟨1⟩, 6)] rfl rfl

end ctxtgtest

namespace ctxtg

open jwt

set_option maxRecDepth 8000

/-- The method `Sign` returns the nil error exactly when the RSA primitive signs the signing
string: it has no check of its own, on the ttl or on anything else. -/
theorem Sign_eq (P : Primitives) (timeNow : time.Time) (r : RSATokenSigner) (c : Claims)
    (timeout : time.Duration) :
    r.Sign P timeNow c timeout =
      match P.SignPKCS1v15 r.privateKey .RS256
          (SigningString P .RS256 (signClaims timeNow c timeout)) with
      | .error e => ("", some (.plain e))
      | .ok sig =>
        (SigningString P .RS256 (signClaims timeNow c timeout) ++ "." ++ P.EncodeSegment sig,
          none) := by
  unfold RSATokenSigner.Sign SignedString SigningMethod.Sign SigningString
  dsimp only
  cases P.SignPKCS1v15 r.privateKey .RS256
    (P.EncodeSegment (P.MarshalHeader SigningMethod.RS256.Alg) ++ "." ++
      P.EncodeSegment (P.MarshalClaims (signClaims timeNow c timeout))) <;> rfl

/-- Every return of `Parse` carries an error or carries claims with the nil error: the
library returns the nil error only together with a valid token. -/
theorem Parse_err_or_claims (P : Primitives) (now : time.Time) (p : RSATokenParser)
    (t : Token) :
    (∃ err, (p.Parse P now t).2 = some err) ∨ ∃ c, p.Parse P now t = (some c, none) := by
  have ho := ParseWithClaims_outcome P now p t
  unfold RSATokenParser.Parse
  generalize ParseWithClaims P now t p.keyFunc = r at ho
  cases ho with
  | malformed tok ve _ hve htok =>
    rw [fromResult_validation _ _ _ htok]
    split_ifs <;> exact Or.inl ⟨_, rfl⟩
  | noMethod =>
    rw [fromResult_validation _ _ _ (by intro tk htk; cases htk; rfl)]
    split_ifs <;> exact Or.inl ⟨_, rfl⟩
  | notRSA =>
    rw [fromResult_validation _ _ _ (by intro tk htk; cases htk; rfl)]
    split_ifs <;> exact Or.inl ⟨_, rfl⟩
  | rejected =>
    rw [fromResult_validation _ _ _ (by intro tk htk; cases htk; rfl)]
    split_ifs <;> exact Or.inl ⟨_, rfl⟩
  | valid p0 p1 p2 a cl m =>
    rcases hp : strconv.ParseInt cl.Subject 0 with ⟨v, _ | err⟩
    · rw [fromResult_valid_ok _ _ _ v rfl hp]
      exact Or.inr ⟨_, rfl⟩
    · rw [fromResult_valid_err _ _ _ rfl (by rw [hp]; simp)]
      exact Or.inl ⟨_, rfl⟩

/-- C21, refuted as stated: a token signed at 10 s with a ttl of 0 carries `exp = 10`, and
`Parse` at the signing instant, and until the end of that second, returns the claims. -/
theorem Parse_zero_ttl_counterexample :
    demo.signer.Sign demo.primitives ⟨10000000000⟩ ⟨42⟩ 0 = ("RS256.42~10~0.15", none) ∧
      demo.parser.Parse demo.primitives ⟨10000000000⟩ "RS256.42~10~0.15" = (some ⟨42⟩, none) ∧
      demo.parser.Parse demo.primitives ⟨10999999999⟩ "RS256.42~10~0.15" = (some ⟨42⟩, none) ∧
      demo.parser.Parse demo.primitives ⟨10000000000⟩ "RS256.42~10~0.15" ≠
        (none, some ErrTokenExpired) :=
  ⟨by decide, by decide, by decide, by decide⟩

/-- C21, amended: for every claims `c` and every ttl `d <= 0`, `Sign(c, d)` returns no error
whenever the RSA primitive signs, and `Parse` on the returned token returns
`ErrTokenExpired` and nil claims at every instant whose Unix second is later than the
token's `exp` (the Unix second of `timeNow + d`), which for `d <= -1s` is the signing
instant and every later instant; this for an `exp` other than 0. -/
theorem Parse_Sign_nonpositive_ttl (P : Primitives) (timeNow now : time.Time)
    (signer : RSATokenSigner) (parser : RSATokenParser) (c : Claims) (timeout : time.Duration)
    (sig : String)
    (_httl : timeout ≤ 0)
    (hprim : P.SignPKCS1v15 signer.privateKey .RS256
      (SigningString P .RS256 (signClaims timeNow c timeout)) = .ok sig)
    (hcodec : P.CarriesToken "RS256" (signClaims timeNow c timeout))
    (hfits : P.SignatureFits signer.privateKey)
    (hexp : (timeNow.Add timeout).Unix ≠ 0)
    (hlate : (timeNow.Add timeout).Unix < now.Unix ∨
      (timeout ≤ -time.Second ∧ timeNow.unixNano ≤ now.unixNano)) :
    (signer.Sign P timeNow c timeout).2 = none ∧
      parser.Parse P now (signer.Sign P timeNow c timeout).1 = (none, some ErrTokenExpired) := by
  have hS : signer.Sign P timeNow c timeout =
      (SigningString P .RS256 (signClaims timeNow c timeout) ++ "." ++ P.EncodeSegment sig,
        none) := by
    rw [Sign_eq, hprim]
  have hafter : (timeNow.Add timeout).Unix < now.Unix := by
    rcases hlate with h | ⟨h1, h2⟩
    · exact h
    · have h1' : @LE.le Int _ timeout (-1000000000) := h1
      show (timeNow.unixNano + (timeout : Int)) / 1000000000 < now.unixNano / 1000000000
      omega
  rw [hS]
  refine ⟨rfl, ?_⟩
  refine Parse_SignedString_expired P now parser .RS256 (signClaims timeNow c timeout)
    signer.privateKey _ rfl hcodec hfits hS ?_
  unfold verifyExp signClaims
  simp only [if_neg hexp, decide_eq_false_iff_not, not_le]
  exact hafter

/-- C21 amended, at a token signed at 10 s with a ttl of -5 s and parsed at 10 s. -/
theorem Parse_Sign_nonpositive_ttl_witness :
    (demo.signer.Sign demo.primitives ⟨10000000000⟩ ⟨42⟩ (-5000000000)).2 = none ∧
      demo.parser.Parse demo.primitives ⟨10000000000⟩
          (demo.signer.Sign demo.primitives ⟨10000000000⟩ ⟨42⟩ (-5000000000)).1 =
        (none, some ErrTokenExpired) :=
  Parse_Sign_nonpositive_ttl demo.primitives ⟨10000000000⟩ ⟨10000000000⟩ demo.signer demo.parser
    ⟨42⟩ (-5000000000) "4" (by decide) rfl ⟨⟨rfl, by decide⟩, rfl, ⟨rfl, by decide⟩, rfl⟩
    (fun m msg sig h => (demo.matchingKeys m msg sig h).1.2) (by decide)
    (Or.inr ⟨by decide, by decide⟩)

/-- C22, refuted as stated: for an outcome of the verification step with a nil token, or
with a token that is not valid, and the nil error, the rest of `Parse` returns nil
claims together with the nil error. -/
theorem fromResult_nil_nil_counterexample :
    RSATokenParser.fromResult ⟨none, {}, none⟩ = (none, none) ∧
      RSATokenParser.fromResult ⟨some { Valid := false }, {}, none⟩ = (none, none) :=
  ⟨by decide, by decide⟩

/-- C22, amended: for every token, `Parse` never returns nil claims together with the nil
error, the library returning the nil error only together with a valid token; so in
`ParseWithClaims` and `ParseCtxWithClaims` the dereference of the claims pointer is
never a nil dereference: each either returns the error of `Parse` without calling the
callback, or calls the callback on the claims and completes as it does. -/
theorem Parse_never_nil_nil {σ : Type} (P : Primitives) (now : time.Time) (p : RSATokenParser)
    (t : Token) (cc : Context) (f : ClaimsFunc σ) (g : CtxClaimsFunc σ) (s : σ) :
    p.Parse P now t ≠ (none, none) ∧
      ((∃ err, p.ParseWithClaims P now t f s = (.returned (some err), s, [])) ∨
        ∃ c, p.Parse P now t = (some c, none) ∧
          p.ParseWithClaims P now t f s =
            ((f c s).1, (f c s).2, [.call none c, .done (f c s).1])) ∧
      ((∃ err, p.ParseCtxWithClaims P now cc g s = (.returned (some err), s, [])) ∨
        ∃ c cancel, p.Parse P now cc.Token = (some c, none) ∧ cc.ToContext.2 = some cancel ∧
          p.ParseCtxWithClaims P now cc g s =
            ((g cc.ToContext.1 c s).1, (g cc.ToContext.1 c s).2,
              [.toContext cc.ToContext.1, .call (some cc.ToContext.1) c,
                .done (g cc.ToContext.1 c s).1, .cancel cancel.target])) := by
  refine ⟨?_, ?_, ?_⟩
  · rcases Parse_err_or_claims P now p t with ⟨err, h⟩ | ⟨c, h⟩
    · intro hn
      rw [hn] at h
      cases h
    · rw [h]
      simp
  · unfold RSATokenParser.ParseWithClaims
    rcases Parse_err_or_claims P now p t with ⟨err, h⟩ | ⟨c, h⟩
    · rcases hp : p.Parse P now t with ⟨c, e⟩
      rw [hp] at h
      simp only at h
      subst h
      exact Or.inl ⟨err, by cases c <;> rfl⟩
    · rw [h]
      exact Or.inr ⟨c, rfl, rfl⟩
  · unfold RSATokenParser.ParseCtxWithClaims
    rcases Parse_err_or_claims P now p cc.Token with ⟨err, h⟩ | ⟨c, h⟩
    · rcases hp : p.Parse P now cc.Token with ⟨c, e⟩
      rw [hp] at h
      simp only at h
      subst h
      exact Or.inl ⟨err, by cases c <;> rfl⟩
    · rw [h]
      have hc := ToContext_snd cc
      rcases hT : cc.ToContext with ⟨ctx, cancel⟩
      rw [hT] at hc
      simp only at hc
      subst hc
      exact Or.inr ⟨c, _, rfl, rfl, rfl⟩

end ctxtg
